import Mathlib

/-!
Verification of the SVG Pen Plotter Editor's execution / orchestration /
persistence core against its specification.

The JavaScript source is shallowly embedded: pure functions become Lean
functions, DOM/`localStorage` effects become explicit state passing, JS
numbers occurring in project data (viewport sizes) are modelled as exact
decimal values (mantissa / 10 ^ exponent), JS `null`/`undefined` become
`Option`, and functions that can throw return `Except`.
-/

namespace Plotter

/-- A JS number as it occurs in project data (viewport width/height):
an exact decimal value `m / 10 ^ e`.  `JSON.stringify` prints such a value
with no trailing fractional zeros, which is the `canon` form below. -/
structure JNum where
  m : ℤ
  e : ℕ
deriving DecidableEq, Repr

/-- Canonical decimal form: no trailing zero in the fractional digits
(`8.5` is `⟨85, 1⟩`, never `⟨850, 2⟩`).  Each finite-decimal JS number has
exactly one canonical form, so value equality is structural equality. -/
def JNum.canon (n : JNum) : Prop := n.e = 0 ∨ ¬ (10 : ℤ) ∣ n.m

instance (n : JNum) : Decidable n.canon := by
  unfold JNum.canon; infer_instance

/-- `ViewportSize` from `resources/js/models/project.js`: width and height in
inches plus a display label. -/
structure ViewportSize where
  width : JNum
  height : JNum
  label : String
deriving DecidableEq, Repr

/-- `Project` from `resources/js/models/project.js`: name, code, viewport and
the two ISO-8601 timestamp strings. -/
structure Project where
  name : String
  code : String
  viewportSize : ViewportSize
  createdAt : String
  updatedAt : String
deriving DecidableEq, Repr

/-- `isValidViewportSize` from `models/project.js`.  The `typeof` checks of
the source are enforced by the Lean types; what remains is positivity of
width and height (positive value iff positive mantissa). -/
def isValidViewportSize (v : ViewportSize) : Bool :=
  (0 < v.width.m) && (0 < v.height.m)

/-- `isValidProject` from `models/project.js`.  The `typeof` string checks
are enforced by the Lean types; the remaining content check is the
viewport check.  Note the source does NOT require a non-empty name. -/
def isValidProject (p : Project) : Bool :=
  isValidViewportSize p.viewportSize

/-- `createProject` from `models/project.js`: stamps
`createdAt = updatedAt = now`.  `now` (the value of
`new Date().toISOString()`) is passed explicitly. -/
def createProject (name : String) (viewportSize : ViewportSize)
    (code : String) (now : String) : Project :=
  { name := name, code := code, viewportSize := viewportSize,
    createdAt := now, updatedAt := now }

/-- `touchProject` from `models/project.js`: spread-copy of the project with
a fresh `updatedAt`; the input object is not mutated. -/
def touchProject (p : Project) (now : String) : Project :=
  { p with updatedAt := now }

/-! ### Decimal digits

Rendering of natural numbers to decimal character lists (as JS number →
string conversion does for integer parts) and the value of a digit list
(as `JSON.parse` computes it). -/

/-- Little-endian decimal digit characters of `n`, fuel-indexed so that it
evaluates by structural recursion (`fuel ≥ n` suffices). -/
def natDigitsAux : ℕ → ℕ → List Char
  | 0, _ => []
  | _, 0 => []
  | fuel + 1, n + 1 =>
    Nat.digitChar ((n + 1) % 10) :: natDigitsAux fuel ((n + 1) / 10)

/-- The decimal digit characters of `n`, most significant first; `0`
renders as `"0"`. -/
def natDigits (n : ℕ) : List Char :=
  if n = 0 then ['0'] else (natDigitsAux n n).reverse

/-- Left-pad a digit list with `'0'` to length `k`. -/
def padZeros (k : ℕ) (l : List Char) : List Char :=
  List.replicate (k - l.length) '0' ++ l

/-- The numeric value of a decimal digit list, accumulated left to right
exactly as a parser does. -/
def digitsVal (l : List Char) : ℕ :=
  l.foldl (fun a c => 10 * a + (c.toNat - 48)) 0

theorem digitChar_isDigit {d : ℕ} (h : d < 10) :
    (Nat.digitChar d).isDigit = true := by
  interval_cases d <;> decide

theorem digitChar_toNat {d : ℕ} (h : d < 10) :
    (Nat.digitChar d).toNat - 48 = d := by
  interval_cases d <;> decide

theorem digitChar_ne_zero {d : ℕ} (h0 : d ≠ 0) (h : d < 10) :
    Nat.digitChar d ≠ '0' := by
  interval_cases d <;> simp_all <;> decide

theorem natDigitsAux_eq (fuel n : ℕ) (h : n ≤ fuel) :
    natDigitsAux fuel n = (Nat.digits 10 n).map Nat.digitChar := by
  induction fuel generalizing n with
  | zero =>
    interval_cases n
    simp [natDigitsAux]
  | succ f ih =>
    cases n with
    | zero => simp [natDigitsAux]
    | succ m =>
      rw [natDigitsAux]
      rw [Nat.digits_def' (by norm_num : (1 : ℕ) < 10) (Nat.succ_pos m)]
      simp only [List.map_cons]
      rw [ih _ (by
        have := Nat.div_lt_self (Nat.succ_pos m) (by norm_num : 1 < 10)
        omega)]

theorem natDigits_eq (n : ℕ) :
    natDigits n
      = if n = 0 then ['0'] else ((Nat.digits 10 n).map Nat.digitChar).reverse := by
  unfold natDigits
  by_cases h : n = 0
  · simp [h]
  · simp [h, natDigitsAux_eq n n le_rfl]

theorem natDigits_all_digits (n : ℕ) :
    ∀ c ∈ natDigits n, c.isDigit = true := by
  intro c hc
  rw [natDigits_eq] at hc
  by_cases h : n = 0
  · simp [h] at hc; simp [hc]
  · simp [h, List.mem_reverse, List.mem_map] at hc
    obtain ⟨d, hd, rfl⟩ := hc
    exact digitChar_isDigit (Nat.digits_lt_base (by norm_num) hd)

theorem foldl_digits_map (l : List ℕ) (hl : ∀ d ∈ l, d < 10) (a : ℕ) :
    ((l.map Nat.digitChar).reverse.foldl (fun a c => 10 * a + (c.toNat - 48)) a)
      = a * 10 ^ l.length + Nat.ofDigits 10 l := by
  induction l generalizing a with
  | nil => simp
  | cons d ds ih =>
    have hd : d < 10 := hl d (by simp)
    have hds : ∀ x ∈ ds, x < 10 := fun x hx => hl x (by simp [hx])
    simp only [List.map_cons, List.reverse_cons, List.foldl_append,
      List.foldl_cons, List.foldl_nil]
    rw [ih hds]
    rw [digitChar_toNat hd]
    simp only [Nat.ofDigits_cons, List.length_cons]
    ring

theorem digitsVal_natDigits (n : ℕ) : digitsVal (natDigits n) = n := by
  rw [natDigits_eq]
  unfold digitsVal
  by_cases h : n = 0
  · simp [h]
  · simp only [h, if_false]
    have := foldl_digits_map (Nat.digits 10 n)
      (fun d hd => Nat.digits_lt_base (by norm_num) hd) 0
    rw [this, Nat.ofDigits_digits]
    simp

theorem digitsVal_padZeros (k : ℕ) (l : List Char) :
    digitsVal (padZeros k l) = digitsVal l := by
  unfold digitsVal padZeros
  rw [List.foldl_append]
  congr 1
  induction (k - l.length) with
  | zero => simp
  | succ j ih => simp [List.replicate_succ, ih]

theorem natDigits_length_le {r e : ℕ} (h : r < 10 ^ e) (he : 1 ≤ e) :
    (natDigits r).length ≤ e := by
  rw [natDigits_eq]
  by_cases hr : r = 0
  · simpa [hr] using he
  · simp only [hr, if_false, List.length_reverse, List.length_map]
    rw [Nat.digits_len 10 r (by norm_num) hr]
    have := Nat.log_lt_of_lt_pow hr h
    omega

theorem padZeros_length {k : ℕ} {l : List Char} (h : l.length ≤ k) :
    (padZeros k l).length = k := by
  simp [padZeros]
  omega

theorem padZeros_all_digits (k : ℕ) (l : List Char)
    (h : ∀ c ∈ l, c.isDigit = true) :
    ∀ c ∈ padZeros k l, c.isDigit = true := by
  intro c hc
  simp only [padZeros, List.mem_append, List.mem_replicate] at hc
  rcases hc with ⟨-, rfl⟩ | hc
  · decide
  · exact h c hc

theorem natDigits_head_ne_zero {n : ℕ} (h0 : n ≠ 0) {c : Char}
    (hc : (natDigits n).head? = some c) : c ≠ '0' := by
  rw [natDigits_eq] at hc
  simp only [h0, if_false] at hc
  rw [List.head?_reverse, List.getLast?_map] at hc
  have hne : Nat.digits 10 n ≠ [] := Nat.digits_ne_nil_iff_ne_zero.mpr h0
  rw [List.getLast?_eq_getLast _ hne] at hc
  simp only [Option.map_some'] at hc
  have hlast := Nat.getLast_digit_ne_zero 10 h0
  have hmem : (Nat.digits 10 n).getLast hne ∈ Nat.digits 10 n :=
    List.getLast_mem hne
  have hlt : (Nat.digits 10 n).getLast hne < 10 :=
    Nat.digits_lt_base (by norm_num) hmem
  have hce : Nat.digitChar ((Nat.digits 10 n).getLast hne) = c := by
    simpa using hc
  rw [← hce]
  exact digitChar_ne_zero hlast hlt

/-! ### JSON string escaping (`JSON.stringify`) and string parsing
(`JSON.parse`)

`JSON.stringify` escapes `"` and `\`, uses the short escapes for the five
named control characters, `\u00XX` (lower-case hex) for the remaining
control characters, and passes every other character (including multi-byte
ones) through verbatim. -/

/-- The escape of a single character, as `JSON.stringify` emits it. -/
def escapeChar (c : Char) : List Char :=
  if c = '"' then ['\\', '"']
  else if c = '\\' then ['\\', '\\']
  else if c.toNat = 8 then ['\\', 'b']
  else if c.toNat = 9 then ['\\', 't']
  else if c.toNat = 10 then ['\\', 'n']
  else if c.toNat = 12 then ['\\', 'f']
  else if c.toNat = 13 then ['\\', 'r']
  else if c.toNat < 32 then
    ['\\', 'u', '0', '0', Nat.digitChar (c.toNat / 16), Nat.digitChar (c.toNat % 16)]
  else [c]

/-- Escape every character of a string body. -/
def escapeList (l : List Char) : List Char := l.flatMap escapeChar

/-- Render a string as a JSON string literal, continuing with `r`:
opening quote, escaped body, closing quote. -/
def renderStringD (s : String) (r : List Char) : List Char :=
  '"' :: (escapeList s.data ++ '"' :: r)

/-- The numeric value of a hex digit character, `none` for non-hex
characters (as used when `JSON.parse` reads a `\uXXXX` escape). -/
def hexVal (c : Char) : Option ℕ :=
  if 48 ≤ c.toNat ∧ c.toNat ≤ 57 then some (c.toNat - 48)
  else if 97 ≤ c.toNat ∧ c.toNat ≤ 102 then some (c.toNat - 87)
  else if 65 ≤ c.toNat ∧ c.toNat ≤ 70 then some (c.toNat - 55)
  else none

/-- Prepend a character to the body of an intermediate string-parse
result. -/
def mapCons (c : Char) (r : Option (List Char × List Char)) :
    Option (List Char × List Char) :=
  r.map (fun p => (c :: p.1, p.2))

/-- Parse the body of a JSON string literal (the opening quote already
consumed), returning the decoded characters and the input after the
closing quote.  Raw control characters are rejected and the standard
escapes (including `\uXXXX`) are decoded, as `JSON.parse` does. -/
def parseStringBody : List Char → Option (List Char × List Char)
  | [] => none
  | c :: cs =>
    if c = '"' then some ([], cs)
    else if c = '\\' then
      match cs with
      | [] => none
      | e :: cs2 =>
        if e = '"' then mapCons '"' (parseStringBody cs2)
        else if e = '\\' then mapCons '\\' (parseStringBody cs2)
        else if e = '/' then mapCons '/' (parseStringBody cs2)
        else if e = 'b' then mapCons (Char.ofNat 8) (parseStringBody cs2)
        else if e = 'f' then mapCons (Char.ofNat 12) (parseStringBody cs2)
        else if e = 'n' then mapCons '\n' (parseStringBody cs2)
        else if e = 'r' then mapCons '\r' (parseStringBody cs2)
        else if e = 't' then mapCons '\t' (parseStringBody cs2)
        else if e = 'u' then
          match cs2 with
          | h1 :: h2 :: h3 :: h4 :: cs3 =>
            match hexVal h1, hexVal h2, hexVal h3, hexVal h4 with
            | some a, some b, some c2, some d =>
              mapCons (Char.ofNat (((a * 16 + b) * 16 + c2) * 16 + d))
                (parseStringBody cs3)
            | _, _, _, _ => none
          | _ => none
        else none
    else if c.toNat < 32 then none
    else mapCons c (parseStringBody cs)

theorem psb_quote (rest : List Char) :
    parseStringBody ('"' :: rest) = some ([], rest) := by
  rw [parseStringBody.eq_def]; simp

theorem psb_esc_quote (r : List Char) :
    parseStringBody ('\\' :: '"' :: r) = mapCons '"' (parseStringBody r) := by
  rw [parseStringBody.eq_def]; simp +decide

theorem psb_esc_backslash (r : List Char) :
    parseStringBody ('\\' :: '\\' :: r) = mapCons '\\' (parseStringBody r) := by
  rw [parseStringBody.eq_def]; simp +decide

theorem psb_esc_b (r : List Char) :
    parseStringBody ('\\' :: 'b' :: r) = mapCons (Char.ofNat 8) (parseStringBody r) := by
  rw [parseStringBody.eq_def]; simp +decide

theorem psb_esc_f (r : List Char) :
    parseStringBody ('\\' :: 'f' :: r) = mapCons (Char.ofNat 12) (parseStringBody r) := by
  rw [parseStringBody.eq_def]; simp +decide

theorem psb_esc_n (r : List Char) :
    parseStringBody ('\\' :: 'n' :: r) = mapCons '\n' (parseStringBody r) := by
  rw [parseStringBody.eq_def]; simp +decide

theorem psb_esc_r (r : List Char) :
    parseStringBody ('\\' :: 'r' :: r) = mapCons '\r' (parseStringBody r) := by
  rw [parseStringBody.eq_def]; simp +decide

theorem psb_esc_t (r : List Char) :
    parseStringBody ('\\' :: 't' :: r) = mapCons '\t' (parseStringBody r) := by
  rw [parseStringBody.eq_def]; simp +decide

theorem psb_esc_u {h1 h2 h3 h4 : Char} {a b c2 d : ℕ} (r : List Char)
    (e1 : hexVal h1 = some a) (e2 : hexVal h2 = some b)
    (e3 : hexVal h3 = some c2) (e4 : hexVal h4 = some d) :
    parseStringBody ('\\' :: 'u' :: h1 :: h2 :: h3 :: h4 :: r)
      = mapCons (Char.ofNat (((a * 16 + b) * 16 + c2) * 16 + d))
          (parseStringBody r) := by
  rw [parseStringBody.eq_def]; simp +decide [e1, e2, e3, e4]

theorem psb_other {c : Char} (h1 : ¬ c = '"') (h2 : ¬ c = '\\')
    (h8 : ¬ c.toNat < 32) (cs : List Char) :
    parseStringBody (c :: cs) = mapCons c (parseStringBody cs) := by
  rw [parseStringBody.eq_def]; simp [h1, h2, h8]

theorem char_ofNat_toNat (c : Char) : Char.ofNat c.toNat = c := by
  have h : c.val.toNat.isValidChar := c.valid
  simp only [Char.ofNat, Char.toNat, dif_pos h, Char.ofNatAux]
  exact Char.ext rfl

theorem hexVal_digitChar {d : ℕ} (h : d < 16) :
    hexVal (Nat.digitChar d) = some d := by
  interval_cases d <;> decide

/-- Inverting the escape: parsing the escaped body followed by a closing
quote recovers the original characters and leaves the rest untouched. -/
theorem parseStringBody_escape (s : List Char) (rest : List Char) :
    parseStringBody (escapeList s ++ '"' :: rest) = some (s, rest) := by
  induction s with
  | nil => simpa [escapeList] using psb_quote rest
  | cons c cs ih =>
    have hstep : escapeList (c :: cs) = escapeChar c ++ escapeList cs := by
      simp [escapeList]
    rw [hstep, List.append_assoc]
    by_cases h1 : c = '"'
    · have hesc : escapeChar c = ['\\', '"'] := by simp [escapeChar, h1]
      rw [hesc, List.cons_append, List.cons_append, List.nil_append,
        psb_esc_quote, ih]
      simp [mapCons, h1]
    · by_cases h2 : c = '\\'
      · have hesc : escapeChar c = ['\\', '\\'] := by simp [escapeChar, h1, h2]
        rw [hesc, List.cons_append, List.cons_append, List.nil_append,
          psb_esc_backslash, ih]
        simp [mapCons, h2]
      · by_cases h3 : c.toNat = 8
        · have hc : Char.ofNat 8 = c := by rw [← h3, char_ofNat_toNat]
          have hesc : escapeChar c = ['\\', 'b'] := by simp [escapeChar, h1, h2, h3]
          rw [hesc, List.cons_append, List.cons_append, List.nil_append,
            psb_esc_b, ih]
          simpa [mapCons] using hc
        · by_cases h4 : c.toNat = 9
          · have hc : ('\t' : Char) = c := by
              have := char_ofNat_toNat c; rw [h4] at this; exact this
            have hesc : escapeChar c = ['\\', 't'] := by
              simp [escapeChar, h1, h2, h3, h4]
            rw [hesc, List.cons_append, List.cons_append, List.nil_append,
              psb_esc_t, ih]
            simpa [mapCons] using hc
          · by_cases h5 : c.toNat = 10
            · have hc : ('\n' : Char) = c := by
                have := char_ofNat_toNat c; rw [h5] at this; exact this
              have hesc : escapeChar c = ['\\', 'n'] := by
                simp [escapeChar, h1, h2, h3, h4, h5]
              rw [hesc, List.cons_append, List.cons_append, List.nil_append,
                psb_esc_n, ih]
              simpa [mapCons] using hc
            · by_cases h6 : c.toNat = 12
              · have hc : Char.ofNat 12 = c := by rw [← h6, char_ofNat_toNat]
                have hesc : escapeChar c = ['\\', 'f'] := by
                  simp [escapeChar, h1, h2, h3, h4, h5, h6]
                rw [hesc, List.cons_append, List.cons_append, List.nil_append,
                  psb_esc_f, ih]
                simpa [mapCons] using hc
              · by_cases h7 : c.toNat = 13
                · have hc : ('\r' : Char) = c := by
                    have := char_ofNat_toNat c; rw [h7] at this; exact this
                  have hesc : escapeChar c = ['\\', 'r'] := by
                    simp [escapeChar, h1, h2, h3, h4, h5, h6, h7]
                  rw [hesc, List.cons_append, List.cons_append, List.nil_append,
                    psb_esc_r, ih]
                  simpa [mapCons] using hc
                · by_cases h8 : c.toNat < 32
                  · have hesc : escapeChar c = ['\\', 'u', '0', '0',
                        Nat.digitChar (c.toNat / 16), Nat.digitChar (c.toNat % 16)] := by
                      simp [escapeChar, h1, h2, h3, h4, h5, h6, h7, h8]
                    have hdiv : c.toNat / 16 < 16 := by omega
                    have hmod : c.toNat % 16 < 16 := by omega
                    rw [hesc]
                    simp only [List.cons_append, List.nil_append]
                    rw [psb_esc_u (escapeList cs ++ '"' :: rest)
                      (show hexVal '0' = some 0 from by decide)
                      (show hexVal '0' = some 0 from by decide)
                      (hexVal_digitChar hdiv) (hexVal_digitChar hmod), ih]
                    have hval : c.toNat / 16 * 16 + c.toNat % 16 = c.toNat := by
                      omega
                    simp [mapCons, hval, char_ofNat_toNat]
                  · have hesc : escapeChar c = [c] := by
                      simp [escapeChar, h1, h2, h3, h4, h5, h6, h7, h8]
                    rw [hesc, List.cons_append, List.nil_append,
                      psb_other h1 h2 h8, ih]
                    simp [mapCons]

/-! ### JSON numbers

`JSON.stringify` prints a finite-decimal number as optional sign, integer
digits, and — when the value is not an integer — a point followed by the
fractional digits with no trailing zero.  `JSON.parse` reads sign, integer
digits (no redundant leading zero) and optional fractional digits, and the
resulting double is the decimal value; equality of doubles arising from
these project files is equality of canonical decimal forms, so the parse
result is normalised to canonical form. -/

/-- Render a `JNum` the way `JSON.stringify` (and JS number → string
conversion) prints its value. -/
def renderJNum (n : JNum) : List Char :=
  (if n.m < 0 then ['-'] else []) ++
    (if n.e = 0 then natDigits n.m.natAbs
     else natDigits (n.m.natAbs / 10 ^ n.e) ++
       '.' :: padZeros n.e (natDigits (n.m.natAbs % 10 ^ n.e)))

/-- `renderJNum`, continuing with `r`. -/
def renderJNumD (n : JNum) (r : List Char) : List Char := renderJNum n ++ r

/-- Leading minus-sign split of a JSON number. -/
def splitSign (l : List Char) : Bool × List Char :=
  match l with
  | c :: r => if c = '-' then (true, r) else (false, l)
  | [] => (false, [])

/-- Strip trailing fractional zeros: the canonical decimal form of the
parsed double's value. -/
def normJNum : ℤ → ℕ → JNum
  | m, 0 => ⟨m, 0⟩
  | m, e + 1 => if (10 : ℤ) ∣ m then normJNum (m / 10) e else ⟨m, e + 1⟩

/-- Greedy span of decimal digit characters, as the `\\d+` part of number
parsing consumes them. -/
def spanDigits : List Char → List Char × List Char
  | [] => ([], [])
  | c :: cs =>
    if c.isDigit then
      let p := spanDigits cs
      (c :: p.1, p.2)
    else ([], c :: cs)

/-- Parse a JSON number (without exponent notation, which the serialised
project files never contain): optional sign, integer digits without a
redundant leading zero, optional point and fractional digits. -/
def parseNumber (l : List Char) : Option (JNum × List Char) :=
  let p := splitSign l
  let neg := p.1
  let q1 := spanDigits p.2
  let ds := q1.1
  let l2 := q1.2
  if ds = [] then none
  else if 1 < ds.length ∧ ds.head? = some '0' then none
  else
    match l2 with
    | '.' :: l3 =>
      let q2 := spanDigits l3
      let fs := q2.1
      let l4 := q2.2
      if fs = [] then none
      else
        some (normJNum ((if neg then -1 else 1) *
          ((digitsVal ds : ℤ) * 10 ^ fs.length + (digitsVal fs : ℤ))) fs.length, l4)
    | _ => some (⟨(if neg then -1 else 1) * (digitsVal ds : ℤ), 0⟩, l2)

/-- `rest` does not continue a number: its head is neither a digit nor a
point. -/
def numBreak (l : List Char) : Prop :=
  ∀ c, l.head? = some c → c.isDigit = false ∧ c ≠ '.'

theorem spanDigits_append {a b : List Char}
    (ha : ∀ c ∈ a, c.isDigit = true)
    (hb : ∀ c, b.head? = some c → c.isDigit = false) :
    spanDigits (a ++ b) = (a, b) := by
  induction a with
  | nil =>
    cases b with
    | nil => rfl
    | cons c bs => simp [spanDigits, hb c rfl]
  | cons c cs ih =>
    have hc : c.isDigit = true := ha c (by simp)
    have hrest : ∀ x ∈ cs, x.isDigit = true := fun x hx => ha x (by simp [hx])
    simp [spanDigits, hc, ih hrest]

theorem natDigits_ne_nil (n : ℕ) : natDigits n ≠ [] := by
  rw [natDigits_eq]
  by_cases h : n = 0
  · simp [h]
  · simp only [h, if_false]
    simp [Nat.digits_ne_nil_iff_ne_zero.mpr h]

theorem natDigits_no_leading_zero (n : ℕ) :
    ¬ (1 < (natDigits n).length ∧ (natDigits n).head? = some '0') := by
  rintro ⟨hlen, hhead⟩
  by_cases h : n = 0
  · rw [h] at hlen; rw [natDigits_eq] at hlen; simp at hlen
  · exact natDigits_head_ne_zero h hhead rfl

theorem normJNum_canon {n : JNum} (hc : n.canon) : normJNum n.m n.e = n := by
  obtain ⟨m, e⟩ := n
  rcases hc with h | h
  · simp only at h
    subst h
    rfl
  · cases e with
    | zero => rfl
    | succ e' =>
      simp only at h
      simp [normJNum, h]

theorem renderJNum_nonneg_int {n : JNum} (hm : ¬ n.m < 0) (he : n.e = 0) :
    renderJNum n = natDigits n.m.natAbs := by
  simp [renderJNum, hm, he]

theorem renderJNum_neg_int {n : JNum} (hm : n.m < 0) (he : n.e = 0) :
    renderJNum n = '-' :: natDigits n.m.natAbs := by
  simp [renderJNum, hm, he]

theorem renderJNum_nonneg_frac {n : JNum} (hm : ¬ n.m < 0) (he : ¬ n.e = 0) :
    renderJNum n = natDigits (n.m.natAbs / 10 ^ n.e) ++
      '.' :: padZeros n.e (natDigits (n.m.natAbs % 10 ^ n.e)) := by
  simp [renderJNum, hm, he]

theorem renderJNum_neg_frac {n : JNum} (hm : n.m < 0) (he : ¬ n.e = 0) :
    renderJNum n = '-' :: (natDigits (n.m.natAbs / 10 ^ n.e) ++
      '.' :: padZeros n.e (natDigits (n.m.natAbs % 10 ^ n.e))) := by
  simp [renderJNum, hm, he]

theorem splitSign_digit {l : List Char} {c : Char} (hhead : l.head? = some c)
    (hc : c.isDigit = true) : splitSign l = (false, l) := by
  cases l with
  | nil => simp at hhead
  | cons x xs =>
    have hx : x = c := by simpa using hhead
    have hne : ¬ x = '-' := by
      intro h
      rw [hx] at h
      rw [h] at hc
      exact absurd hc (by decide)
    simp [splitSign, hne]

theorem natDigits_head_digit (a : ℕ) {x : List Char} {c : Char}
    (hhead : (natDigits a ++ x).head? = some c) : c.isDigit = true := by
  obtain ⟨d, ds, hds⟩ := List.exists_cons_of_ne_nil (natDigits_ne_nil a)
  rw [hds] at hhead
  simp only [List.cons_append, List.head?_cons, Option.some.injEq] at hhead
  rw [← hhead]
  exact natDigits_all_digits a d (by rw [hds]; simp)

theorem parseNumber_unsigned_int (a : ℕ) (rest : List Char)
    (hrest : numBreak rest) (neg : Bool) :
    parseNumber ((if neg then ['-'] else []) ++ (natDigits a ++ rest))
      = some (⟨(if neg then -1 else 1) * (a : ℤ), 0⟩, rest) := by
  obtain ⟨c, hc⟩ : ∃ c, (natDigits a ++ rest).head? = some c := by
    obtain ⟨d, ds, hds⟩ := List.exists_cons_of_ne_nil (natDigits_ne_nil a)
    exact ⟨d, by rw [hds]; simp⟩
  have hsplit : splitSign ((if neg then ['-'] else []) ++ (natDigits a ++ rest))
      = (neg, natDigits a ++ rest) := by
    cases neg with
    | true => simp [splitSign]
    | false =>
      simp only [Bool.false_eq_true, if_false, List.nil_append]
      exact splitSign_digit hc (natDigits_head_digit a hc)
  have hspan : spanDigits (natDigits a ++ rest) = (natDigits a, rest) :=
    spanDigits_append (natDigits_all_digits a) (fun c h => (hrest c h).1)
  unfold parseNumber
  rw [hsplit]
  simp only [hspan]
  rw [if_neg (natDigits_ne_nil a), if_neg (natDigits_no_leading_zero a)]
  split
  · exact absurd rfl (hrest '.' rfl).2
  · rw [digitsVal_natDigits]

theorem parseNumber_unsigned_frac (a e : ℕ) (he : e ≠ 0) (rest : List Char)
    (hrest : numBreak rest) (neg : Bool)
    (hdvd : ¬ (10 : ℤ) ∣ ((if neg then -1 else 1) * (a : ℤ))) :
    parseNumber ((if neg then ['-'] else []) ++
        (natDigits (a / 10 ^ e) ++
          '.' :: (padZeros e (natDigits (a % 10 ^ e)) ++ rest)))
      = some (⟨(if neg then -1 else 1) * (a : ℤ), e⟩, rest) := by
  have hpos : 0 < 10 ^ e := by positivity
  have hrlt : a % 10 ^ e < 10 ^ e := Nat.mod_lt _ hpos
  have he1 : 1 ≤ e := Nat.one_le_iff_ne_zero.mpr he
  have hflen : (padZeros e (natDigits (a % 10 ^ e))).length = e :=
    padZeros_length (natDigits_length_le hrlt he1)
  obtain ⟨c, hc⟩ : ∃ c, (natDigits (a / 10 ^ e) ++
      '.' :: (padZeros e (natDigits (a % 10 ^ e)) ++ rest)).head? = some c := by
    obtain ⟨d, ds, hds⟩ := List.exists_cons_of_ne_nil (natDigits_ne_nil (a / 10 ^ e))
    exact ⟨d, by rw [hds]; simp⟩
  have hsplit : splitSign ((if neg then ['-'] else []) ++
      (natDigits (a / 10 ^ e) ++
        '.' :: (padZeros e (natDigits (a % 10 ^ e)) ++ rest)))
      = (neg, natDigits (a / 10 ^ e) ++
          '.' :: (padZeros e (natDigits (a % 10 ^ e)) ++ rest)) := by
    cases neg with
    | true => simp [splitSign]
    | false =>
      simp only [Bool.false_eq_true, if_false, List.nil_append]
      exact splitSign_digit hc (natDigits_head_digit _ hc)
  have hspan : spanDigits (natDigits (a / 10 ^ e) ++
      '.' :: (padZeros e (natDigits (a % 10 ^ e)) ++ rest))
      = (natDigits (a / 10 ^ e), '.' :: (padZeros e (natDigits (a % 10 ^ e)) ++ rest)) :=
    spanDigits_append (natDigits_all_digits _) (fun c h => by
      have hcc : c = '.' := by simpa using h.symm
      rw [hcc]; decide)
  have hspan2 : spanDigits (padZeros e (natDigits (a % 10 ^ e)) ++ rest)
      = (padZeros e (natDigits (a % 10 ^ e)), rest) :=
    spanDigits_append (padZeros_all_digits _ _ (natDigits_all_digits _))
      (fun c h => (hrest c h).1)
  have hfne : padZeros e (natDigits (a % 10 ^ e)) ≠ [] := by
    intro hnil
    rw [hnil] at hflen
    simp at hflen
    omega
  unfold parseNumber
  rw [hsplit]
  simp only [hspan]
  rw [if_neg (natDigits_ne_nil _), if_neg (natDigits_no_leading_zero _)]
  simp only [hspan2]
  rw [if_neg hfne]
  rw [digitsVal_natDigits, digitsVal_padZeros, digitsVal_natDigits, hflen]
  have hval : (if neg then (-1 : ℤ) else 1) *
      (((a / 10 ^ e : ℕ) : ℤ) * (10 : ℤ) ^ e + ((a % 10 ^ e : ℕ) : ℤ))
      = (if neg then -1 else 1) * (a : ℤ) := by
    congr 1
    have hdm : 10 ^ e * (a / 10 ^ e) + a % 10 ^ e = a := Nat.div_add_mod a (10 ^ e)
    push_cast
    push_cast at hdm
    linarith
  rw [hval]
  have hcanon : JNum.canon ⟨(if neg then -1 else 1) * (a : ℤ), e⟩ := Or.inr hdvd
  rw [normJNum_canon hcanon]

/-- Parsing inverts rendering for canonical numbers, provided the
following input does not continue the number. -/
theorem parseNumber_render (n : JNum) (hc : n.canon) (rest : List Char)
    (hrest : numBreak rest) :
    parseNumber (renderJNumD n rest) = some (n, rest) := by
  obtain ⟨m, e⟩ := n
  by_cases hm : m < 0
  · have hmm : (-1 : ℤ) * (m.natAbs : ℤ) = m := by omega
    by_cases he : e = 0
    · have h := parseNumber_unsigned_int m.natAbs rest hrest true
      rw [show ((if (true : Bool) then ['-'] else []) : List Char) = ['-'] from rfl] at h
      rw [show (if (true : Bool) then (-1 : ℤ) else 1) = -1 from rfl] at h
      rw [hmm] at h
      rw [renderJNumD, renderJNum_neg_int hm he]
      subst he
      simpa using h
    · have hdvd : ¬ (10 : ℤ) ∣ ((if (true : Bool) then (-1 : ℤ) else 1) * (m.natAbs : ℤ)) := by
        rw [show (if (true : Bool) then (-1 : ℤ) else 1) = -1 from rfl, hmm]
        rcases hc with h | h
        · exact absurd h he
        · exact h
      have h := parseNumber_unsigned_frac m.natAbs e he rest hrest true hdvd
      rw [show ((if (true : Bool) then ['-'] else []) : List Char) = ['-'] from rfl] at h
      rw [show (if (true : Bool) then (-1 : ℤ) else 1) = -1 from rfl] at h
      rw [hmm] at h
      rw [renderJNumD, renderJNum_neg_frac hm he]
      simp only [List.cons_append, List.append_assoc, List.cons_append] at h ⊢
      simpa using h
  · have hmm : (1 : ℤ) * (m.natAbs : ℤ) = m := by omega
    by_cases he : e = 0
    · have h := parseNumber_unsigned_int m.natAbs rest hrest false
      rw [show ((if (false : Bool) then ['-'] else []) : List Char) = [] from rfl] at h
      rw [show (if (false : Bool) then (-1 : ℤ) else 1) = 1 from rfl] at h
      rw [hmm] at h
      rw [renderJNumD, renderJNum_nonneg_int hm he]
      subst he
      simpa using h
    · have hdvd : ¬ (10 : ℤ) ∣ ((if (false : Bool) then (-1 : ℤ) else 1) * (m.natAbs : ℤ)) := by
        rw [show (if (false : Bool) then (-1 : ℤ) else 1) = 1 from rfl, hmm]
        rcases hc with h | h
        · exact absurd h he
        · exact h
      have h := parseNumber_unsigned_frac m.natAbs e he rest hrest false hdvd
      rw [show ((if (false : Bool) then ['-'] else []) : List Char) = [] from rfl] at h
      rw [show (if (false : Bool) then (-1 : ℤ) else 1) = 1 from rfl] at h
      rw [hmm] at h
      rw [renderJNumD, renderJNum_nonneg_frac hm he]
      simp only [List.nil_append, List.append_assoc, List.cons_append] at h ⊢
      simpa using h

/-! ### JSON values and `JSON.parse`

`JSON.parse` is modelled as a recursive-descent reader over the character
list with a recursion-depth fuel (instantiated below with more fuel than
any project document needs, so the fuel never runs out on the documents
this development reasons about). -/

/-- A parsed JSON value, as `JSON.parse` returns it (objects keep their
textual field order, as JS objects do). -/
inductive Json where
  | str (s : String)
  | num (n : JNum)
  | jbool (b : Bool)
  | null
  | arr (elems : List Json)
  | obj (fields : List (String × Json))

/-- JSON insignificant whitespace. -/
def isWsChar (c : Char) : Bool := c = ' ' || c = '\t' || c = '\n' || c = '\r'

/-- Skip insignificant whitespace. -/
def skipWs : List Char → List Char
  | [] => []
  | c :: cs => if isWsChar c then skipWs cs else c :: cs

mutual

/-- Parse one JSON value. -/
def parseValue : ℕ → List Char → Option (Json × List Char)
  | 0, _ => none
  | fuel + 1, l =>
    match skipWs l with
    | [] => none
    | c :: cs =>
      if c = '{' then
        match skipWs cs with
        | '}' :: r => some (.obj [], r)
        | cs2 => parseMembers fuel cs2 []
      else if c = '[' then
        match skipWs cs with
        | ']' :: r => some (.arr [], r)
        | cs2 => parseElems fuel cs2 []
      else if c = '"' then
        match parseStringBody cs with
        | some (b, r) => some (.str (String.mk b), r)
        | none => none
      else if c = 't' then
        match cs with
        | 'r' :: 'u' :: 'e' :: r => some (.jbool true, r)
        | _ => none
      else if c = 'f' then
        match cs with
        | 'a' :: 'l' :: 's' :: 'e' :: r => some (.jbool false, r)
        | _ => none
      else if c = 'n' then
        match cs with
        | 'u' :: 'l' :: 'l' :: r => some (.null, r)
        | _ => none
      else
        match parseNumber (c :: cs) with
        | some (n, r) => some (.num n, r)
        | none => none

/-- Parse the members of an object (after `{`, first member not yet
read). -/
def parseMembers : ℕ → List Char → List (String × Json) →
    Option (Json × List Char)
  | 0, _, _ => none
  | fuel + 1, l, acc =>
    match skipWs l with
    | '"' :: cs =>
      match parseStringBody cs with
      | some (k, r1) =>
        (match skipWs r1 with
         | ':' :: r2 =>
           match parseValue fuel r2 with
           | some (v, r3) =>
             (match skipWs r3 with
              | ',' :: r4 => parseMembers fuel r4 (acc ++ [(String.mk k, v)])
              | '}' :: r4 => some (.obj (acc ++ [(String.mk k, v)]), r4)
              | _ => none)
           | none => none
         | _ => none)
      | none => none
    | _ => none

/-- Parse the elements of an array (after `[`, first element not yet
read). -/
def parseElems : ℕ → List Char → List Json → Option (Json × List Char)
  | 0, _, _ => none
  | fuel + 1, l, acc =>
    match parseValue fuel l with
    | some (v, r1) =>
      (match skipWs r1 with
       | ',' :: r2 => parseElems fuel r2 (acc ++ [v])
       | ']' :: r2 => some (.arr (acc ++ [v]), r2)
       | _ => none)
    | none => none

end

theorem skipWs_cons {c : Char} (h : isWsChar c = false) (l : List Char) :
    skipWs (c :: l) = c :: l := by
  simp [skipWs, h]

/-! ### The serialised project document

`JSON.stringify(project)` emits the object fields in insertion order
(name, code, viewportSize, createdAt, updatedAt; width, height, label
inside the viewport), with no whitespace. -/

/-- The JSON value a parsed viewport object denotes. -/
def vpToJson (v : ViewportSize) : Json :=
  .obj [("width", .num v.width), ("height", .num v.height),
        ("label", .str v.label)]

/-- The JSON value a parsed project object denotes. -/
def projToJson (p : Project) : Json :=
  .obj [("name", .str p.name), ("code", .str p.code),
        ("viewportSize", vpToJson p.viewportSize),
        ("createdAt", .str p.createdAt), ("updatedAt", .str p.updatedAt)]

/-- The characters `JSON.stringify` emits for the viewport object,
continuing with `r`. -/
def renderVPD (v : ViewportSize) (r : List Char) : List Char :=
  '{' :: renderStringD "width" (':' :: renderJNumD v.width (',' ::
    renderStringD "height" (':' :: renderJNumD v.height (',' ::
    renderStringD "label" (':' :: renderStringD v.label ('}' :: r))))))

/-- The characters `JSON.stringify` emits for a whole project,
continuing with `r`. -/
def renderProjectD (p : Project) (r : List Char) : List Char :=
  '{' :: renderStringD "name" (':' :: renderStringD p.name (',' ::
    renderStringD "code" (':' :: renderStringD p.code (',' ::
    renderStringD "viewportSize" (':' :: renderVPD p.viewportSize (',' ::
    renderStringD "createdAt" (':' :: renderStringD p.createdAt (',' ::
    renderStringD "updatedAt" (':' :: renderStringD p.updatedAt ('}' :: r))))))))))

/-- `JSON.stringify(project)`, as `saveProjectToLocalStorage` produces it. -/
def serializeProject (p : Project) : String := String.mk (renderProjectD p [])

theorem parseValue_succ (f : ℕ) (l : List Char) :
    parseValue (f + 1) l =
      match skipWs l with
      | [] => none
      | c :: cs =>
        if c = '{' then
          match skipWs cs with
          | '}' :: r => some (.obj [], r)
          | cs2 => parseMembers f cs2 []
        else if c = '[' then
          match skipWs cs with
          | ']' :: r => some (.arr [], r)
          | cs2 => parseElems f cs2 []
        else if c = '"' then
          match parseStringBody cs with
          | some (b, r) => some (.str (String.mk b), r)
          | none => none
        else if c = 't' then
          match cs with
          | 'r' :: 'u' :: 'e' :: r => some (.jbool true, r)
          | _ => none
        else if c = 'f' then
          match cs with
          | 'a' :: 'l' :: 's' :: 'e' :: r => some (.jbool false, r)
          | _ => none
        else if c = 'n' then
          match cs with
          | 'u' :: 'l' :: 'l' :: r => some (.null, r)
          | _ => none
        else
          match parseNumber (c :: cs) with
          | some (n, r) => some (.num n, r)
          | none => none := by
  rw [parseValue.eq_def]

theorem parseMembers_succ (f : ℕ) (l : List Char) (acc : List (String × Json)) :
    parseMembers (f + 1) l acc =
      match skipWs l with
      | '"' :: cs =>
        match parseStringBody cs with
        | some (k, r1) =>
          (match skipWs r1 with
           | ':' :: r2 =>
             match parseValue f r2 with
             | some (v, r3) =>
               (match skipWs r3 with
                | ',' :: r4 => parseMembers f r4 (acc ++ [(String.mk k, v)])
                | '}' :: r4 => some (.obj (acc ++ [(String.mk k, v)]), r4)
                | _ => none)
             | none => none
           | _ => none)
        | none => none
      | _ => none := by
  rw [parseMembers.eq_def]

theorem parseValue_str (f : ℕ) (s : String) (rest : List Char) :
    parseValue (f + 1) (renderStringD s rest) = some (.str s, rest) := by
  rw [parseValue_succ, renderStringD, skipWs_cons (by decide)]
  simp +decide [parseStringBody_escape]

theorem renderJNum_cons (n : JNum) :
    ∃ c cs, renderJNum n = c :: cs ∧ (c = '-' ∨ c.isDigit = true) := by
  by_cases hm : n.m < 0
  · by_cases he : n.e = 0
    · rw [renderJNum_neg_int hm he]
      exact ⟨'-', _, rfl, Or.inl rfl⟩
    · rw [renderJNum_neg_frac hm he]
      exact ⟨'-', _, rfl, Or.inl rfl⟩
  · by_cases he : n.e = 0
    · rw [renderJNum_nonneg_int hm he]
      obtain ⟨d, ds, hds⟩ := List.exists_cons_of_ne_nil (natDigits_ne_nil _)
      exact ⟨d, ds, hds, Or.inr (natDigits_all_digits _ d (by rw [hds]; simp))⟩
    · rw [renderJNum_nonneg_frac hm he]
      obtain ⟨d, ds, hds⟩ := List.exists_cons_of_ne_nil (natDigits_ne_nil _)
      refine ⟨d, ds ++ '.' :: padZeros n.e (natDigits (n.m.natAbs % 10 ^ n.e)), ?_,
        Or.inr (natDigits_all_digits _ d (by rw [hds]; simp))⟩
      rw [hds]
      simp

theorem numHead_not_ws {c : Char} (h : c = '-' ∨ c.isDigit = true) :
    isWsChar c = false := by
  rcases h with rfl | hd
  · decide
  · by_contra hws
    simp only [Bool.not_eq_false] at hws
    have hcases : c = ' ' ∨ c = '\t' ∨ c = '\n' ∨ c = '\r' := by
      simpa [isWsChar, or_assoc] using hws
    rcases hcases with rfl | rfl | rfl | rfl <;> simp at hd

theorem numHead_ne {c : Char} (h : c = '-' ∨ c.isDigit = true) (x : Char)
    (hx : x.isDigit = false) (hxm : ¬ x = '-') : ¬ c = x := by
  rcases h with rfl | hd
  · intro hc; exact hxm hc.symm
  · intro hc; rw [hc] at hd; rw [hd] at hx; exact absurd hx (by simp)

theorem parseValue_num (f : ℕ) (n : JNum) (hc : n.canon) (rest : List Char)
    (hrest : numBreak rest) :
    parseValue (f + 1) (renderJNumD n rest) = some (.num n, rest) := by
  obtain ⟨c, cs, hl, hhead⟩ := renderJNum_cons n
  have hl2 : renderJNumD n rest = c :: (cs ++ rest) := by
    rw [renderJNumD, hl]; simp
  rw [parseValue_succ, hl2, skipWs_cons (numHead_not_ws hhead)]
  have e1 := numHead_ne hhead '{' (by decide) (by decide)
  have e2 := numHead_ne hhead '[' (by decide) (by decide)
  have e3 := numHead_ne hhead '"' (by decide) (by decide)
  have e4 := numHead_ne hhead 't' (by decide) (by decide)
  have e5 := numHead_ne hhead 'f' (by decide) (by decide)
  have e6 := numHead_ne hhead 'n' (by decide) (by decide)
  simp [e1, e2, e3, e4, e5, e6]
  rw [show c :: (cs ++ rest) = renderJNumD n rest from hl2.symm,
    parseNumber_render n hc rest hrest]

theorem pm_step (f : ℕ) (k : String) (r2 : List Char)
    (acc : List (String × Json)) :
    parseMembers (f + 1) (renderStringD k (':' :: r2)) acc =
      match parseValue f r2 with
      | some (v, r3) =>
        (match skipWs r3 with
         | ',' :: r4 => parseMembers f r4 (acc ++ [(k, v)])
         | '}' :: r4 => some (.obj (acc ++ [(k, v)]), r4)
         | _ => none)
      | none => none := by
  rw [parseMembers_succ, renderStringD, skipWs_cons (by decide)]
  simp +decide [parseStringBody_escape, skipWs_cons]
  rw [skipWs_cons (by decide)]
  rfl

theorem pm_str_comma (f : ℕ) (k v : String) (rest : List Char)
    (acc : List (String × Json)) :
    parseMembers (f + 2) (renderStringD k (':' :: renderStringD v (',' :: rest))) acc
      = parseMembers (f + 1) rest (acc ++ [(k, .str v)]) := by
  rw [show f + 2 = (f + 1) + 1 from rfl, pm_step (f + 1), parseValue_str f v]
  simp only []
  rw [skipWs_cons (by decide)]
  simp only []

theorem pm_str_close (f : ℕ) (k v : String) (rest : List Char)
    (acc : List (String × Json)) :
    parseMembers (f + 2) (renderStringD k (':' :: renderStringD v ('}' :: rest))) acc
      = some (.obj (acc ++ [(k, .str v)]), rest) := by
  rw [show f + 2 = (f + 1) + 1 from rfl, pm_step (f + 1), parseValue_str f v]
  simp only []
  rw [skipWs_cons (by decide)]
  simp only []

theorem pm_num_comma (f : ℕ) (k : String) (n : JNum) (hc : n.canon)
    (rest : List Char) (acc : List (String × Json)) :
    parseMembers (f + 2) (renderStringD k (':' :: renderJNumD n (',' :: rest))) acc
      = parseMembers (f + 1) rest (acc ++ [(k, .num n)]) := by
  rw [show f + 2 = (f + 1) + 1 from rfl, pm_step (f + 1),
    parseValue_num f n hc (',' :: rest) (fun c h => by
      have : c = ',' := by simpa using h.symm
      rw [this]; exact ⟨by decide, by decide⟩)]
  simp only []
  rw [skipWs_cons (by decide)]
  simp only []

/-- Parsing the serialised viewport object yields its JSON value. -/
theorem parse_vp (f : ℕ) (v : ViewportSize) (hw : v.width.canon)
    (hh : v.height.canon) (rest : List Char) :
    parseValue (f + 5) (renderVPD v rest) = some (vpToJson v, rest) := by
  rw [show f + 5 = (f + 4) + 1 from rfl, parseValue_succ, renderVPD,
    skipWs_cons (by decide), show f + 4 = (f + 2) + 2 from rfl]
  simp only [if_true]
  split
  · rename_i r heq
    rw [renderStringD, skipWs_cons (by decide)] at heq
    simp +decide at heq
  · rw [show skipWs (renderStringD "width" (':' :: renderJNumD v.width (',' ::
        renderStringD "height" (':' :: renderJNumD v.height (',' ::
        renderStringD "label" (':' :: renderStringD v.label ('}' :: rest)))))))
        = renderStringD "width" (':' :: renderJNumD v.width (',' ::
        renderStringD "height" (':' :: renderJNumD v.height (',' ::
        renderStringD "label" (':' :: renderStringD v.label ('}' :: rest))))))
        from by rw [renderStringD, skipWs_cons (by decide)]]
    rw [pm_num_comma (f + 2) "width" v.width hw _ _]
    rw [show f + 2 + 1 = (f + 1) + 2 from rfl,
      pm_num_comma (f + 1) "height" v.height hh _ _]
    rw [show f + 1 + 1 = f + 2 from rfl, pm_str_close f "label" v.label]
    simp [vpToJson]

theorem pm_vp_comma (f : ℕ) (k : String) (v : ViewportSize)
    (hw : v.width.canon) (hh : v.height.canon) (rest : List Char)
    (acc : List (String × Json)) :
    parseMembers (f + 6) (renderStringD k (':' :: renderVPD v (',' :: rest))) acc
      = parseMembers (f + 5) rest (acc ++ [(k, vpToJson v)]) := by
  rw [show f + 6 = (f + 5) + 1 from rfl, pm_step (f + 5),
    parse_vp f v hw hh (',' :: rest)]
  simp only []
  rw [skipWs_cons (by decide)]
  simp only []

/-- Parsing the serialised project document yields its JSON value. -/
theorem parse_doc (f : ℕ) (p : Project) (hw : p.viewportSize.width.canon)
    (hh : p.viewportSize.height.canon) (rest : List Char) :
    parseValue (f + 10) (renderProjectD p rest) = some (projToJson p, rest) := by
  rw [show f + 10 = (f + 9) + 1 from rfl, parseValue_succ, renderProjectD,
    skipWs_cons (by decide), show f + 9 = (f + 7) + 2 from rfl]
  simp only [if_true]
  split
  · rename_i r heq
    rw [renderStringD, skipWs_cons (by decide)] at heq
    simp +decide at heq
  · rw [show skipWs (renderStringD "name" (':' :: renderStringD p.name (',' ::
        renderStringD "code" (':' :: renderStringD p.code (',' ::
        renderStringD "viewportSize" (':' :: renderVPD p.viewportSize (',' ::
        renderStringD "createdAt" (':' :: renderStringD p.createdAt (',' ::
        renderStringD "updatedAt" (':' :: renderStringD p.updatedAt ('}' :: rest)))))))))))
        = renderStringD "name" (':' :: renderStringD p.name (',' ::
        renderStringD "code" (':' :: renderStringD p.code (',' ::
        renderStringD "viewportSize" (':' :: renderVPD p.viewportSize (',' ::
        renderStringD "createdAt" (':' :: renderStringD p.createdAt (',' ::
        renderStringD "updatedAt" (':' :: renderStringD p.updatedAt ('}' :: rest))))))))))
        from by rw [renderStringD, skipWs_cons (by decide)]]
    rw [pm_str_comma (f + 7) "name" p.name]
    rw [show f + 7 + 1 = (f + 6) + 2 from rfl, pm_str_comma (f + 6) "code" p.code]
    rw [show f + 6 + 1 = (f + 1) + 6 from rfl,
      pm_vp_comma (f + 1) "viewportSize" p.viewportSize hw hh]
    rw [show f + 1 + 5 = (f + 4) + 2 from rfl,
      pm_str_comma (f + 4) "createdAt" p.createdAt]
    rw [show f + 4 + 1 = (f + 3) + 2 from rfl,
      pm_str_close (f + 3) "updatedAt" p.updatedAt]
    simp [projToJson, vpToJson]

/-- Reading a parsed JSON value back as a `Project`.  `JSON.parse` returns
the raw object; a value is deep-equal to a `Project` exactly when it is an
object of precisely this shape, which is what this reading captures (any
other shape is not a `Project` value and is modelled as `none`). -/
def projOfJson : Json → Option Project
  | .obj [("name", .str n), ("code", .str c),
          ("viewportSize", .obj [("width", .num w), ("height", .num h),
                                 ("label", .str lb)]),
          ("createdAt", .str ca), ("updatedAt", .str ua)] =>
    some { name := n, code := c, viewportSize := { width := w, height := h, label := lb },
           createdAt := ca, updatedAt := ua }
  | _ => none

/-- `JSON.parse` applied to a candidate project document: parse one value,
require only trailing whitespace, and read the object as a `Project`. -/
def deserializeProject (s : String) : Option Project :=
  match parseValue (s.length + 1) s.data with
  | some (j, rest) => if skipWs rest = [] then projOfJson j else none
  | none => none

theorem projOfJson_projToJson (p : Project) :
    projOfJson (projToJson p) = some p := rfl

/-- The heart of claim C1: parsing inverts serialisation for every project
whose viewport numbers are in canonical decimal form. -/
theorem deserializeProject_serializeProject (p : Project)
    (hw : p.viewportSize.width.canon) (hh : p.viewportSize.height.canon) :
    deserializeProject (serializeProject p) = some p := by
  unfold deserializeProject serializeProject
  have hlen9 : 9 ≤ (renderProjectD p []).length := by
    simp [renderProjectD, renderStringD, renderVPD, renderJNumD,
      List.length_append]
    omega
  have hful : (String.mk (renderProjectD p [])).length + 1
      = ((renderProjectD p []).length - 9) + 10 := by
    have : (String.mk (renderProjectD p [])).length
        = (renderProjectD p []).length := rfl
    omega
  rw [hful]
  rw [show (String.mk (renderProjectD p [])).data = renderProjectD p [] from rfl]
  rw [parse_doc ((renderProjectD p []).length - 9) p hw hh []]
  simp [projOfJson_projToJson, skipWs]

/-! ### The session store (`localStorage`)

`localStorage` is modelled as an association of string keys to string
values together with an availability flag (the probe in
`isLocalStorageAvailable`) and a capacity: a write that would take the
stored size past the capacity throws `QuotaExceededError`, modelled as
`setItem` returning `none`. -/

/-- `STORAGE_KEYS` from `utils/local-storage.js`. -/
def STORAGE_KEYS : List String :=
  ["plotter_current_project", "plotter_code", "plotter_viewport",
   "plotter_project_name"]

/-- `STORAGE_KEYS.PROJECT`. -/
def projectKey : String := "plotter_current_project"

/-- The browser store. -/
structure LocalStore where
  available : Bool
  quota : ℕ
  entries : List (String × String)
deriving DecidableEq, Repr

/-- Total stored size, the quantity the quota bounds. -/
def entriesSize (l : List (String × String)) : ℕ :=
  (l.map (fun kv => kv.1.length + kv.2.length)).sum

/-- Update one key (the stored order of distinct keys is not observable
through `getItem`, so the update is modelled as remove-then-append). -/
def setEntry (l : List (String × String)) (k v : String) :
    List (String × String) :=
  l.filter (fun kv => decide (kv.1 ≠ k)) ++ [(k, v)]

/-- Read one key. -/
def getEntry (l : List (String × String)) (k : String) : Option String :=
  (l.find? (fun kv => decide (kv.1 = k))).map (fun kv => kv.2)

theorem getEntry_setEntry (l : List (String × String)) (k v : String) :
    getEntry (setEntry l k v) k = some v := by
  unfold getEntry setEntry
  induction l with
  | nil => simp
  | cons a t ih =>
    by_cases h : a.1 = k
    · simp only [List.filter_cons, h]
      simp
    · simp only [List.filter_cons, h]
      simp [List.find?_cons, h]

/-- `isLocalStorageAvailable` from `utils/local-storage.js`: the
write-and-delete probe succeeds exactly when the store is usable, which
the model carries as a flag. -/
def isLocalStorageAvailable (st : LocalStore) : Bool := st.available

/-- `localStorage.setItem`: `none` models a thrown
`QuotaExceededError`. -/
def setItem (st : LocalStore) (k v : String) : Option LocalStore :=
  let l2 := setEntry st.entries k v
  if entriesSize l2 ≤ st.quota then some { st with entries := l2 } else none

/-- `clearLocalStorage` from `utils/local-storage.js`: removes every
managed key. -/
def clearLocalStorage (st : LocalStore) : LocalStore :=
  { st with
    entries := st.entries.filter (fun kv => decide (¬ kv.1 ∈ STORAGE_KEYS)) }

/-- `saveProjectToLocalStorage` from `utils/local-storage.js`:
`JSON.stringify` the project and store it under the project key; on
quota failure, clear the managed keys once and retry; report success as
a boolean, never throwing. -/
def saveProjectToLocalStorage (st : LocalStore) (p : Project) :
    Bool × LocalStore :=
  if isLocalStorageAvailable st = false then (false, st)
  else
    match setItem st projectKey (serializeProject p) with
    | some st2 => (true, st2)
    | none =>
      match setItem (clearLocalStorage st) projectKey (serializeProject p) with
      | some st4 => (true, st4)
      | none => (false, clearLocalStorage st)

/-- `loadProjectFromLocalStorage` from `utils/local-storage.js`: read the
project key and `JSON.parse` it; a missing key, an empty string (falsy in
the `!projectJson` guard) or a parse failure yields `null`. -/
def loadProjectFromLocalStorage (st : LocalStore) : Option Project :=
  if isLocalStorageAvailable st = false then none
  else
    match getEntry st.entries projectKey with
    | none => none
    | some projectJson =>
      if projectJson = "" then none
      else deserializeProject projectJson

theorem serializeProject_ne_empty (p : Project) : serializeProject p ≠ "" := by
  unfold serializeProject renderProjectD
  intro h
  have hd := congrArg String.data h
  simp at hd

theorem setItem_some {st st2 : LocalStore} {k v : String}
    (h : setItem st k v = some st2) :
    st2.available = st.available ∧ getEntry st2.entries k = some v := by
  unfold setItem at h
  simp only at h
  split at h
  · injection h with h2
    rw [← h2]
    exact ⟨rfl, getEntry_setEntry _ _ _⟩
  · exact absurd h (by simp)

theorem clearLocalStorage_available (st : LocalStore) :
    (clearLocalStorage st).available = st.available := rfl

theorem saveProject_stores {st : LocalStore} {p : Project}
    (hsaved : (saveProjectToLocalStorage st p).1 = true) :
    (saveProjectToLocalStorage st p).2.available = st.available ∧
    getEntry (saveProjectToLocalStorage st p).2.entries projectKey
      = some (serializeProject p) := by
  by_cases hav : isLocalStorageAvailable st = false
  · exfalso
    unfold saveProjectToLocalStorage at hsaved
    rw [if_pos hav] at hsaved
    simp at hsaved
  · unfold saveProjectToLocalStorage at hsaved ⊢
    rw [if_neg hav] at hsaved ⊢
    cases h1 : setItem st projectKey (serializeProject p) with
    | some st2 =>
      simp only [h1]
      exact setItem_some h1
    | none =>
      cases h2 : setItem (clearLocalStorage st) projectKey (serializeProject p) with
      | some st4 =>
        simp only [h1, h2]
        have hs := setItem_some h2
        rw [clearLocalStorage_available] at hs
        exact hs
      | none =>
        rw [h1, h2] at hsaved
        simp at hsaved

/-- C1: for every valid Project (any name, script — including scripts with
quotes, backslashes, multi-byte characters, embedded newlines, the empty
script, and arbitrarily long scripts, all covered by quantifying over every
string — and canonical viewport numbers), serialising it to the store with
`saveProjectToLocalStorage` and loading it back with
`loadProjectFromLocalStorage` yields a Project deep-equal to the original
field-for-field, the script text surviving verbatim. -/
theorem c1_save_load_round_trip (st : LocalStore) (p : Project)
    (hvalid : isValidProject p = true)
    (hw : p.viewportSize.width.canon) (hh : p.viewportSize.height.canon)
    (hsaved : (saveProjectToLocalStorage st p).1 = true) :
    loadProjectFromLocalStorage (saveProjectToLocalStorage st p).2 = some p := by
  have hvalid2 := hvalid
  clear hvalid2
  obtain ⟨hav2, hget⟩ := saveProject_stores hsaved
  have hav : st.available = true := by
    cases h : st.available with
    | true => rfl
    | false =>
      exfalso
      unfold saveProjectToLocalStorage isLocalStorageAvailable at hsaved
      rw [h] at hsaved
      simp at hsaved
  unfold loadProjectFromLocalStorage isLocalStorageAvailable
  rw [hav2, hav]
  simp only [Bool.true_eq_false, if_false]
  rw [hget]
  simp only []
  rw [if_neg (serializeProject_ne_empty p)]
  exact deserializeProject_serializeProject p hw hh

/-- A concrete store and project exercising the round trip: quotes,
backslashes, multi-byte characters and embedded newlines in the script,
a fractional viewport width, and an empty-quota-free store. -/
def witnessStore : LocalStore :=
  { available := true, quota := 100000, entries := [] }

/-- Concrete witness project for C1. -/
def witnessProject : Project :=
  { name := "Täst \"Projekt\" \\ 🎨"
  , code := "draw.circle(1);\n// \"quotes\" and \\backslashes\\ and ünïcödé\n"
  , viewportSize := { width := ⟨85, 1⟩, height := ⟨11, 0⟩, label := "8.5x11" }
  , createdAt := "2024-01-01T00:00:00.000Z"
  , updatedAt := "2024-06-01T12:30:00.000Z" }

set_option maxRecDepth 100000 in
/-- Witness for C1 at a concrete project and store. -/
theorem c1_save_load_round_trip_witness :
    isValidProject witnessProject = true ∧
    (saveProjectToLocalStorage witnessStore witnessProject).1 = true ∧
    loadProjectFromLocalStorage
        (saveProjectToLocalStorage witnessStore witnessProject).2
      = some witnessProject :=
  ⟨by decide, by decide,
    c1_save_load_round_trip witnessStore witnessProject (by decide) (by decide)
      (by decide) (by decide)⟩

/-! ### Error model and classification

`CodeError` from the error model (`createCodeError` / `parseError`) and
`SVGGenerator._formatError`.  A raw thrown JS value is modelled by
`RawFailure`: accessing `.message` / `.stack` on `null`/`undefined`
throws `TypeError` (modelled as `Except.error`); on any other value the
access yields the property when present and `undefined` (`none`)
otherwise (thrown strings and plain objects have no `message`/`stack`
unless they carry one). -/

/-- The two error kinds of the source (`'syntax' | 'runtime'`);
`syntaxErr` stands for the string `'syntax'` and `runtimeErr` for
`'runtime'`.  Note the source has no third, timeout kind. -/
inductive ErrKind where
  | syntaxErr
  | runtimeErr
deriving DecidableEq, Repr

/-- `CodeError` from the error model: `message` may be `undefined` when
the raw failure had none (`none` models both `null` and `undefined`). -/
structure CodeError where
  message : Option String
  line : Option ℕ
  column : Option ℕ
  type : ErrKind
deriving DecidableEq, Repr

/-- A raw thrown value: `null`/`undefined`, or any other value with its
observable `message` / `stack` properties and whether it is a
`SyntaxError` instance. -/
inductive RawFailure where
  | nullish
  | val (message : Option String) (stack : Option String) (isSyntaxError : Bool)
deriving DecidableEq, Repr

/-- `createCodeError` from the error model. -/
def createCodeError (message : Option String) (type : ErrKind)
    (line : Option ℕ) (column : Option ℕ) : CodeError :=
  { message := message, line := line, column := column, type := type }

/-- The leftmost match of the regular expression `:(\d+):(\d+)`: scan for
a colon followed by digits, a colon, and digits (maximal digit runs; a
shorter run never helps, since the character ending a digit run is not a
digit, so maximal munch is exactly the backtracking semantics here). -/
def findColonPair : List Char → Option (ℕ × ℕ)
  | [] => none
  | c :: cs =>
    if c = ':' then
      match spanDigits cs with
      | ([], _) => findColonPair cs
      | (d1, r1) =>
        match r1 with
        | ':' :: r2 =>
          match spanDigits r2 with
          | ([], _) => findColonPair cs
          | (d2, _) => some (digitsVal d1, digitsVal d2)
        | _ => findColonPair cs
    else findColonPair cs

/-- One attempt of the regular expression `line (\d+)` (case-insensitive)
at the start of the input. -/
def matchLineAt (l : List Char) : Option ℕ :=
  match l with
  | a :: b :: c :: d :: e :: r =>
    if a.toLower = 'l' && b.toLower = 'i' && c.toLower = 'n'
        && d.toLower = 'e' && e = ' ' then
      match spanDigits r with
      | ([], _) => none
      | (ds, _) => some (digitsVal ds)
    else none
  | _ => none

/-- The leftmost match of `line (\d+)` (case-insensitive). -/
def findLineRef : List Char → Option ℕ
  | [] => none
  | c :: cs =>
    match matchLineAt (c :: cs) with
    | some n => some n
    | none => findLineRef cs

/-- `parseError` from the error model.  `error.stack` on a nullish value
throws `TypeError` (the `Except.error` case); an empty stack string is
falsy and skipped; in the syntax-with-falsy-line fallback,
`error.message.match` throws when `message` is `undefined`. -/
def parseError : RawFailure → ErrKind → Except Unit CodeError
  | .nullish, _ => .error ()
  | .val msg stk _, ty =>
    let lc : Option ℕ × Option ℕ :=
      match stk with
      | some s =>
        if s ≠ "" then
          match findColonPair s.data with
          | some (a, b) => (some a, some b)
          | none => (none, none)
        else (none, none)
      | none => (none, none)
    if ty = .syntaxErr ∧ (lc.1 = none ∨ lc.1 = some 0) then
      match msg with
      | none => .error ()
      | some m =>
        match findLineRef m.data with
        | some n => .ok (createCodeError msg ty (some n) lc.2)
        | none => .ok (createCodeError msg ty lc.1 lc.2)
    else .ok (createCodeError msg ty lc.1 lc.2)

/-- Match `:(\d+):(\d+)` at the start of the input only. -/
def colonPairAt (l : List Char) : Option (ℕ × ℕ) :=
  match l with
  | ':' :: cs =>
    (match spanDigits cs with
     | ([], _) => none
     | (d1, r1) =>
       match r1 with
       | ':' :: r2 =>
         (match spanDigits r2 with
          | ([], _) => none
          | (d2, _) => some (digitsVal d1, digitsVal d2))
       | _ => none)
  | _ => none

/-- The rightmost `:(\d+):(\d+)` in the input (the greedy `.*` of
`at.*:(\d+):(\d+)` backtracks from the right). -/
def findColonPairLast : List Char → Option (ℕ × ℕ)
  | [] => none
  | c :: cs =>
    match findColonPairLast cs with
    | some r => some r
    | none => colonPairAt (c :: cs)

/-- The regular expression `at.*:(\d+):(\d+)` of
`SVGGenerator._formatError`: find the first `at` from which the rest of
the pattern matches on the same line (`.` does not cross a newline), and
within that line take the rightmost colon pair, as the greedy `.*`
does. -/
def findAtColonPair : List Char → Option (ℕ × ℕ)
  | [] => none
  | c :: cs =>
    if c = 'a' then
      match cs with
      | 't' :: r2 =>
        (match findColonPairLast (r2.takeWhile (fun x => decide (x ≠ '\n'))) with
         | some p => some p
         | none => findAtColonPair cs)
      | _ => findAtColonPair cs
    else findAtColonPair cs

/-- `SVGGenerator._formatError`: type from `instanceof SyntaxError`,
line/column from the stack via `at.*:(\d+):(\d+)` (optional chaining, so
an absent stack is safe), and for syntax errors an unconditional
`error.message.match(/line (\d+)/i)` — which throws `TypeError` when the
thrown value has no `message` (and already threw at
`error.message` for a nullish value). -/
def formatError : RawFailure → Except Unit CodeError
  | .nullish => .error ()
  | .val msg stk isSyn =>
    let ty := if isSyn then ErrKind.syntaxErr else ErrKind.runtimeErr
    let lc : Option ℕ × Option ℕ :=
      match stk with
      | some s =>
        (match findAtColonPair s.data with
         | some (a, b) => (some a, some b)
         | none => (none, none))
      | none => (none, none)
    if ty = .syntaxErr then
      match msg with
      | none => .error ()
      | some m =>
        match findLineRef m.data with
        | some n => .ok { message := msg, line := some n, column := lc.2, type := ty }
        | none => .ok { message := msg, line := lc.1, column := lc.2, type := ty }
    else .ok { message := msg, line := lc.1, column := lc.2, type := ty }

/-! ### The sandbox (`SVGGenerator.execute` / `_executeWithTimeout`)

The user function produced by `new Function('draw', code)` is invoked
synchronously inside the Promise executor.  Its behaviour is modelled by
`RunResult`: it returns (possibly leaving asynchronous work it started
still pending), throws synchronously, or never returns (a synchronous
infinite loop, which blocks the event loop).  The executor arms a
5000 ms timer before the call and clears it on both the return and the
throw path; `settleOnce` models the settle-once semantics of a
Promise. -/

/-- Behaviour of one invocation of the compiled user function. -/
inductive RunResult where
  | returns (asyncPending : Bool)
  | throwsSync (e : RawFailure)
  | diverges
deriving DecidableEq, Repr

/-- How a promise settles: fulfilled, or rejected with a raw value. -/
inductive Settle where
  | resolved
  | rejected (e : RawFailure)
deriving DecidableEq, Repr

/-- The executor's promise state: settled result (if any) and whether the
timeout timer is still armed. -/
structure PromiseState where
  settled : Option Settle
  timerArmed : Bool
deriving DecidableEq, Repr

/-- Settle a promise at most once. -/
def settleOnce (s : PromiseState) (r : Settle) : PromiseState :=
  if s.settled.isSome then s else { s with settled := some r }

/-- The `Error` the timeout callback would reject with. -/
def timeoutFailure : RawFailure :=
  .val (some "Code execution timed out after 5 seconds") none false

/-- The synchronous part of `_executeWithTimeout`'s executor: arm the
timer, run the user function, and on either completion path clear the
timer and settle.  A diverging user function blocks before any
settle. -/
def runExecutorSync : RunResult → PromiseState
  | .returns _ => settleOnce { settled := none, timerArmed := false } .resolved
  | .throwsSync e => settleOnce { settled := none, timerArmed := false } (.rejected e)
  | .diverges => { settled := none, timerArmed := true }

/-- The timer callback at 5000 ms: if still armed, reject with the
timeout error (a no-op on a settled promise). -/
def fireTimer (s : PromiseState) : PromiseState :=
  if s.timerArmed then settleOnce s (.rejected timeoutFailure) else s

/-- The final outcome of `_executeWithTimeout`: for a diverging user
function the thread never yields, so neither the settle nor the timer
callback ever runs (`none`); otherwise the synchronous part runs and then
the timer may fire. -/
def executeWithTimeout : RunResult → Option Settle
  | .diverges => none
  | r => (fireTimer (runExecutorSync r)).settled

/-- What `execute` rejects with: the formatted `CodeError` stored in
`lastError`, or — when `_formatError` itself threw on a nullish value —
that `TypeError`. -/
inductive RejectedVal where
  | codeErr (e : CodeError)
  | jsTypeError
deriving DecidableEq, Repr

/-- `SVGGenerator.execute`: create the container, run
`_executeWithTimeout`, on fulfilment capture and return the markup
(`container.innerHTML`, passed in as `markup`), on rejection clean up,
format the error and throw it (`Except.error` models the rejection of the
returned promise); `none` models an execution that never settles. -/
def execute (run : RunResult) (markup : String) :
    Option (Except RejectedVal String) :=
  match executeWithTimeout run with
  | none => none
  | some .resolved => some (.ok markup)
  | some (.rejected e) =>
    match formatError e with
    | .ok ce => some (.error (.codeErr ce))
    | .error _ => some (.error .jsTypeError)

/-! ### The orchestrator (`PlotterApp.handleRegenerate`)

`handleRegenerate` reads the code, clears the error display and the
editor annotations, awaits `svgGenerator.execute`, and then either
renders the markup or shows the caught error — with **no** sequence
number anywhere: a resolution applies its effects whenever it arrives.
The machine below replays the interleaving: an `issue` event is the
synchronous prefix of one `handleRegenerate` call, and a `resolve` event
is the continuation after its `await` returns, tagged (for stating the
claims only — the code ignores it) with which call is resolving. -/

/-- What `ErrorDisplay.showError` displays for an error object: the
header from `error.type || 'runtime'`, the message from
`error.message || 'An unknown error occurred'` (so an absent or empty
message shows the fallback), and a location from
`error.line || null` / `error.column || null` (so line or column 0 is
treated as absent). -/
structure Surfaced where
  kindShown : ErrKind
  messageShown : String
  location : Option (ℕ × Option ℕ)
deriving DecidableEq, Repr

/-- `ErrorDisplay.showError` on a caught error object. -/
def displayOf (e : CodeError) : Surfaced :=
  { kindShown := e.type
  , messageShown :=
      match e.message with
      | some m => if m = "" then "An unknown error occurred" else m
      | none => "An unknown error occurred"
  , location :=
      match e.line with
      | some n =>
        if n = 0 then none
        else some (n,
          match e.column with
          | some c => if c = 0 then none else some c
          | none => none)
      | none => none }

/-- The observable state `handleRegenerate` touches: how many executions
have been issued, the preview markup, the surfaced error, the editor's
line annotated, and the stored project snapshot (which
`handleRegenerate` never touches). -/
structure AppState where
  issued : ℕ
  preview : Option String
  surfaced : Option Surfaced
  annotated : Option (ℕ × Option String)
  store : Option String
deriving DecidableEq, Repr

/-- The synchronous prefix of `handleRegenerate`: a new execution is
issued; `codeEditor.clearErrors()` and `errorDisplay.clearError()` run
before the `await`. -/
def stepIssue (s : AppState) : AppState :=
  { s with issued := s.issued + 1, surfaced := none, annotated := none }

/-- The continuation of `handleRegenerate` after its `await`: on success
render the markup; on failure show the error and, if `error.line` is
truthy, highlight that line.  No staleness check of any kind is
performed. -/
def stepResolve (s : AppState) (out : Except CodeError String) : AppState :=
  match out with
  | .ok markup => { s with preview := some markup }
  | .error e =>
    { s with
      surfaced := some (displayOf e)
      annotated :=
        match e.line with
        | some n => if n = 0 then s.annotated else some (n, e.message)
        | none => s.annotated }

/-- An interleaving event: a regenerate call starting, or the execution
issued by call number `seq` resolving. -/
inductive AppEvent where
  | issue
  | resolve (seq : ℕ) (out : Except CodeError String)

/-- One event step; the `seq` tag of a resolution is ignored, exactly as
the source ignores it. -/
def stepEvent (s : AppState) : AppEvent → AppState
  | .issue => stepIssue s
  | .resolve _ out => stepResolve s out

/-- Replay a trace of events. -/
def runApp (s : AppState) (evs : List AppEvent) : AppState :=
  evs.foldl stepEvent s

/-- The initial application state. -/
def initialApp : AppState :=
  { issued := 0, preview := none, surfaced := none, annotated := none,
    store := none }

/-! ### The manager (`ProjectManager.saveToLocalStorage`) -/

/-- `ProjectManager.saveToLocalStorage`: reject invalid projects, touch a
copy (never the input), and hand the touched copy to the storage layer.
`currentProject` is the manager's in-memory field, which this method
never assigns. -/
def managerSaveToLocalStorage (currentProject : Option Project)
    (p : Project) (now : String) (st : LocalStore) :
    Bool × Option Project × LocalStore :=
  if isValidProject p = false then (false, currentProject, st)
  else
    let updatedProject := touchProject p now
    let r := saveProjectToLocalStorage st updatedProject
    (r.1, currentProject, r.2)

/-! ### The editor debounce (`CodeEditor._handleCodeChange`) and the
auto-save path (`PlotterApp._handleAutoSave`)

`_handleCodeChange` cancels any pending auto-save timer and arms a new
one `autoSaveDelay = 1000` ms out; when a timer fires,
`_triggerAutoSave` dispatches an `autosave` event carrying
`this.getValue()` — the editor value at fire time.  The `autosave`
listener in `PlotterApp` calls `_handleAutoSave`, which assigns
`currentProject.code` and calls `ProjectManager.saveToLocalStorage`; it
calls nothing else — in particular it never starts an execution. -/

/-- An edit: the editor's new full value and the event's time (ms). -/
structure EditEvent where
  value : String
  time : ℕ
deriving DecidableEq, Repr

/-- Debounce state: the current editor value and the pending timer's fire
time, if one is armed. -/
structure DebounceState where
  value : String
  pendingFire : Option ℕ
deriving DecidableEq, Repr

/-- Process one edit at its time: a timer due at or before this moment
fires first (dispatching the value the editor held), then the edit lands
and `_handleCodeChange` re-arms the timer 1000 ms out. -/
def editStep : DebounceState × List String → EditEvent → DebounceState × List String
  | (s, fired), ev =>
    let fired2 :=
      match s.pendingFire with
      | some f => if f ≤ ev.time then fired ++ [s.value] else fired
      | none => fired
    ({ value := ev.value, pendingFire := some (ev.time + 1000) }, fired2)

/-- After the last edit, let any remaining timer fire. -/
def flushTimer : DebounceState × List String → List String
  | (s, fired) =>
    match s.pendingFire with
    | some _ => fired ++ [s.value]
    | none => fired

/-- The auto-save payloads dispatched for a sequence of edits starting
from editor value `init` with no timer armed. -/
def runEdits (init : String) (evs : List EditEvent) : List String :=
  flushTimer (evs.foldl editStep ({ value := init, pendingFire := none }, []))

/-- Consecutive edits arrive within the quiet window: each next edit
comes strictly before the previous edit's timer fires. -/
def withinWindow : List EditEvent → Prop
  | [] => True
  | [_] => True
  | a :: b :: r => b.time < a.time + 1000 ∧ withinWindow (b :: r)

/-- `PlotterApp._handleAutoSave` on one autosave payload: mutate
`currentProject.code`, then save through the manager.  It touches
nothing in `AppState` — in particular it issues no execution.  Returns
the new app state, project, store, and the log of store writes
performed. -/
def handleAutoSave (a : AppState) (proj : Project) (st : LocalStore)
    (code : String) (now : String) :
    AppState × Project × LocalStore × List String :=
  let proj2 := { proj with code := code }
  let r := managerSaveToLocalStorage none proj2 now st
  (a, proj2, r.2.2,
    if r.1 then [serializeProject (touchProject proj2 now)] else [])

/-- Feed every autosave payload of an edit burst through
`_handleAutoSave`, collecting the store writes. -/
def runAutoSaves (a : AppState) (proj : Project) (st : LocalStore)
    (now : String) (codes : List String) :
    AppState × Project × LocalStore × List String :=
  match codes with
  | [] => (a, proj, st, [])
  | c :: cs =>
    let r := handleAutoSave a proj st c now
    let rec2 := runAutoSaves r.1 r.2.1 r.2.2.1 now cs
    (rec2.1, rec2.2.1, rec2.2.2.1, r.2.2.2 ++ rec2.2.2.2)

/-! ### The exporter (`utils/svg-exporter.js`) -/

/-- The `<svg>` element as the exporter sees it after `DOMParser`:
attribute map and serialised inner content.  `DOMParser` itself is a host
facility; its outcome on the markup is the `Option SvgElement` input of
`exportSVG` (with `none` for a parse failure or a missing `svg`
element). -/
structure SvgElement where
  attrs : List (String × String)
  inner : String
deriving DecidableEq, Repr

/-- `Element.setAttribute` (replace or add; attribute order is not
observed by the claims, so the update reuses the store's
remove-then-append association update). -/
def setAttribute (el : SvgElement) (k v : String) : SvgElement :=
  { el with attrs := setEntry el.attrs k v }

/-- `Element.getAttribute`. -/
def getAttribute (el : SvgElement) (k : String) : Option String :=
  getEntry el.attrs k

/-- `XMLSerializer.serializeToString` on the `svg` element. -/
def renderAttrs : List (String × String) → String
  | [] => ""
  | (k, v) :: t => " " ++ k ++ "=\"" ++ v ++ "\"" ++ renderAttrs t

/-- Serialise the element: tag, attributes, inner content. -/
def serializeElement (el : SvgElement) : String :=
  "<svg" ++ renderAttrs el.attrs ++ ">" ++ el.inner ++ "</svg>"

/-- The declaration header the exporter prepends. -/
def xmlDeclaration : String := "<?xml version=\"1.0\" encoding=\"UTF-8\"?>\n"

/-- `exportSVG` from `utils/svg-exporter.js`: validate the inputs, set
the namespace attributes and the viewBox, serialise, prepend the XML
declaration, and trigger a download named `filename ++ ".svg"`.  The
result pair is (artifact text, download filename); `Except.error` models
a thrown `Error` with its message. -/
def exportSVG (svgMarkup : String) (parsed : Option SvgElement)
    (filename : String) (vp : ViewportSize) :
    Except String (String × String) :=
  if svgMarkup = "" then
    .error "Invalid SVG markup: must be a non-empty string"
  else if filename = "" then
    .error "Invalid filename: must be a non-empty string"
  else
    match parsed with
    | none => .error "Failed to parse SVG markup: invalid XML"
    | some svgElement =>
      let el1 := setAttribute svgElement "xmlns" "http://www.w3.org/2000/svg"
      let el2 := setAttribute el1 "xmlns:xlink" "http://www.w3.org/1999/xlink"
      let viewBox := "0 0 " ++ String.mk (renderJNum vp.width) ++ " "
        ++ String.mk (renderJNum vp.height)
      let el3 := setAttribute el2 "viewBox" viewBox
      .ok (xmlDeclaration ++ serializeElement el3, filename ++ ".svg")

/-! ### Timestamp order

The timestamps are ISO-8601 strings (`new Date().toISOString()`), whose
lexicographic character order coincides with chronological order. -/

/-- Lexicographic order on character lists by code point. -/
def lexLe : List Char → List Char → Bool
  | [], _ => true
  | _ :: _, [] => false
  | a :: as, b :: bs =>
    if a.toNat < b.toNat then true
    else if b.toNat < a.toNat then false
    else lexLe as bs

/-- Order on ISO-8601 timestamp strings. -/
def tsLe (a b : String) : Bool := lexLe a.data b.data

theorem lexLe_refl (l : List Char) : lexLe l l = true := by
  induction l with
  | nil => rfl
  | cons a as ih => simp [lexLe, ih]

theorem tsLe_refl (s : String) : tsLe s s = true := lexLe_refl s.data

/-- The Project invariants claimed by the specification: non-empty name,
positive viewport dimensions, `updatedAt >= createdAt`. -/
def ProjectInvariants (p : Project) : Prop :=
  p.name ≠ "" ∧ 0 < p.viewportSize.width.m ∧ 0 < p.viewportSize.height.m ∧
  tsLe p.createdAt p.updatedAt = true

instance (p : Project) : Decidable (ProjectInvariants p) := by
  unfold ProjectInvariants; infer_instance

/-! ## The claims -/

/-- C2 (counterexample): issue two executions, let the second resolve
first with markup `"M2"`, then let the stale first execution resolve with
`"M1"`.  The stale resolution is **not** discarded: it changes the state
and the committed preview ends as `"M1"`, not the last-issued execution's
`"M2"`. -/
theorem c2_stale_result_committed :
    (1 < (runApp initialApp [.issue, .issue, .resolve 2 (.ok "M2")]).issued) ∧
    stepEvent (runApp initialApp [.issue, .issue, .resolve 2 (.ok "M2")])
        (.resolve 1 (.ok "M1"))
      ≠ runApp initialApp [.issue, .issue, .resolve 2 (.ok "M2")] ∧
    (stepEvent (runApp initialApp [.issue, .issue, .resolve 2 (.ok "M2")])
        (.resolve 1 (.ok "M1"))).preview = some "M1" ∧
    (runApp initialApp [.issue, .issue, .resolve 2 (.ok "M2")]).preview
      = some "M2" := by
  decide

/-- C2 (amended): `handleRegenerate` has no sequence-number mechanism;
every resolution applies its side effects, so the committed preview
always reflects the most recently *resolved* successful execution,
whatever its issuance order. -/
theorem c2_last_resolved_wins (s : AppState) (evs : List AppEvent)
    (i : ℕ) (m : String) :
    (runApp s (evs ++ [.resolve i (.ok m)])).preview = some m := by
  unfold runApp
  rw [List.foldl_append]
  simp [stepEvent, stepResolve]

/-- C3 (counterexample): `execute` does not deliver failures as a
returned tagged value — a script that throws makes the promise returned
by `execute` reject (`throw this.lastError`), refuting "never throws to
its caller". -/
theorem c3_execute_rejects :
    ¬ (∀ (run : RunResult) (markup : String) (r : Except RejectedVal String),
        execute run markup = some r → ∃ m, r = .ok m) := by
  intro h
  obtain ⟨m, hm⟩ := h (.throwsSync (.val (some "boom") none false)) "m"
    (.error (.codeErr ⟨some "boom", none, none, .runtimeErr⟩)) rfl
  cases hm

/-- C3 (amended): `execute` resolves with the captured markup exactly
when the user function returns; when the user function throws it rejects
— with the formatted `CodeError`, or with the formatter's own
`TypeError` when the thrown value was nullish; when the user function
never returns, `execute` never settles. -/
theorem c3_execute_outcomes (markup : String) :
    (∀ b, execute (.returns b) markup = some (.ok markup)) ∧
    (∀ msg stk isSyn, ∃ r, execute (.throwsSync (.val msg stk isSyn)) markup
        = some (.error r)) ∧
    execute (.throwsSync .nullish) markup = some (.error .jsTypeError) ∧
    execute .diverges markup = none := by
  refine ⟨fun b => rfl, fun msg stk isSyn => ?_, rfl, rfl⟩
  unfold execute
  cases h : formatError (.val msg stk isSyn) with
  | ok ce => exact ⟨.codeErr ce, by simp [executeWithTimeout, runExecutorSync,
      fireTimer, settleOnce, h]⟩
  | error u => exact ⟨.jsTypeError, by simp [executeWithTimeout, runExecutorSync,
      fireTimer, settleOnce, h]⟩

/-- C4 (counterexample): an execution whose asynchronous portion is still
pending resolves successfully at once — the outcome is `Success`, not a
timeout fault of any kind. -/
theorem c4_async_pending_resolves :
    execute (.returns true) "m" = some (.ok "m") ∧
    ∀ e, execute (.returns true) "m" ≠ some (.error e) := by
  exact ⟨rfl, fun e h => by cases h⟩

/-- C4 (amended): the 5000 ms timer is armed but cleared on both settle
paths, and the user function's asynchronous portion is never awaited, so
the outcome of `_executeWithTimeout` is exactly determined by the
synchronous run — resolve on return (even with async work pending),
reject with the thrown value on throw, never settle on divergence; the
timer's timeout rejection contributes nothing. -/
theorem c4_timeout_unreachable (run : RunResult) :
    executeWithTimeout run
      = (match run with
         | .returns _ => some .resolved
         | .throwsSync e => some (.rejected e)
         | .diverges => none) ∧
    (∀ b, run = .returns b → (runExecutorSync run).timerArmed = false) ∧
    (∀ e, run = .throwsSync e → (runExecutorSync run).timerArmed = false) := by
  cases run <;>
    simp [executeWithTimeout, runExecutorSync, fireTimer, settleOnce]

/-- A state with a rendered preview, no surfaced error and no
annotated, mid-session. -/
def c5State : AppState :=
  { issued := 1, preview := some "P", surfaced := none, annotated := none,
    store := some "S" }

/-- A fault carrying line number 0, column 0 and an empty message. -/
def c5Fault : CodeError :=
  { message := some "", line := some 0, column := some 0, type := .runtimeErr }

/-- A fault carrying line number 7 and a non-empty message. -/
def c5WitnessState : AppState :=
  { issued := 4, preview := some "P", surfaced := none, annotated := none,
    store := some "S" }

/-- The fault used by the C5 witness. -/
def c5WitnessFault : CodeError :=
  { message := some "boom", line := some 7, column := none, type := .syntaxErr }

/-- C5 (counterexample): a fault carrying line number 0 and an empty
message.  The preview is indeed untouched, but `if (error.line)` treats
line 0 as absent, so the line is not annotated, and
`error.message || fallback` replaces the empty message with the
placeholder — refuting "the fault is surfaced with its message" and "if
the fault carries a line number that line is annotated" as stated. -/
theorem c5_line_zero_not_annotated :
    (stepResolve c5State (.error c5Fault)).preview = some "P" ∧
    (stepResolve c5State (.error c5Fault)).annotated = none ∧
    c5Fault.line = some 0 ∧
    (stepResolve c5State (.error c5Fault)).surfaced
      = some { kindShown := .runtimeErr,
               messageShown := "An unknown error occurred", location := none } ∧
    c5Fault.message = some "" ∧
    ("An unknown error occurred" : String) ≠ "" := by
  decide

/-- C5 (amended): when an execution fails (in particular while still the
latest), the preview and the stored project are left exactly as they
were; the fault is surfaced with its kind, with its message when that
message is a non-empty string (an absent or empty message is shown as
the placeholder), and when the fault carries a line number other than 0
that line is annotated in the editor (line 0 is treated like an absent
line). -/
theorem c5_failure_preserves_preview (s : AppState) (e : CodeError) (i : ℕ)
    (hlatest : i = s.issued) :
    (stepEvent s (.resolve i (.error e))).preview = s.preview ∧
    (stepEvent s (.resolve i (.error e))).store = s.store ∧
    (stepEvent s (.resolve i (.error e))).surfaced = some (displayOf e) ∧
    (displayOf e).kindShown = e.type ∧
    (∀ m, e.message = some m → m ≠ "" → (displayOf e).messageShown = m) ∧
    (∀ n, e.line = some n → n ≠ 0 →
      (stepEvent s (.resolve i (.error e))).annotated = some (n, e.message)) ∧
    (e.line = none →
      (stepEvent s (.resolve i (.error e))).annotated = s.annotated) := by
  subst hlatest
  refine ⟨rfl, rfl, rfl, rfl, ?_, ?_, ?_⟩
  · intro m hm hne
    simp [displayOf, hm, hne]
  · intro n hn hne
    simp [stepEvent, stepResolve, hn, hne]
  · intro hn
    simp [stepEvent, stepResolve, hn]

/-- Witness for C5 at a concrete state and fault (line 7, non-empty
message, resolving while latest). -/
theorem c5_failure_preserves_preview_witness :
    (stepEvent c5WitnessState (.resolve 4 (.error c5WitnessFault))).preview
      = c5WitnessState.preview ∧
    (stepEvent c5WitnessState (.resolve 4 (.error c5WitnessFault))).store
      = c5WitnessState.store ∧
    (stepEvent c5WitnessState (.resolve 4 (.error c5WitnessFault))).surfaced
      = some (displayOf c5WitnessFault) ∧
    (displayOf c5WitnessFault).kindShown = c5WitnessFault.type ∧
    (∀ m, c5WitnessFault.message = some m → m ≠ "" →
      (displayOf c5WitnessFault).messageShown = m) ∧
    (∀ n, c5WitnessFault.line = some n → n ≠ 0 →
      (stepEvent c5WitnessState (.resolve 4 (.error c5WitnessFault))).annotated
        = some (n, c5WitnessFault.message)) ∧
    (c5WitnessFault.line = none →
      (stepEvent c5WitnessState (.resolve 4 (.error c5WitnessFault))).annotated
        = c5WitnessState.annotated) :=
  c5_failure_preserves_preview c5WitnessState c5WitnessFault 4 rfl

/-- C7 (counterexample): classification is not total — `parseError` on a
nullish raw failure throws a `TypeError` at the `error.stack` access
instead of yielding an `ExecutionFault`. -/
theorem c7_nullish_throws :
    parseError .nullish .runtimeErr = .error () ∧
    ∀ ce, parseError .nullish .runtimeErr ≠ .ok ce := by
  exact ⟨rfl, fun ce h => by cases h⟩

/-- C7 (amended): for every non-nullish raw failure that carries a
message string, `parseError` returns a `CodeError` without throwing,
whatever the stack and hint; and when the stack yields no
`:(line):(column)` pair and the message yields no `line N` reference,
`line` and `column` are simply absent — which is not an error.  (On
nullish failures, and on message-less failures reaching the
syntax-hint message scan, the source throws a `TypeError`.) -/
theorem c7_classify_total_on_messages (m : String) (stk : Option String)
    (isSyn : Bool) (ty : ErrKind) :
    (∃ ce, parseError (.val (some m) stk isSyn) ty = .ok ce) ∧
    ((∀ s, stk = some s → s = "" ∨ findColonPair s.data = none) →
      findLineRef m.data = none →
      parseError (.val (some m) stk isSyn) ty
        = .ok (createCodeError (some m) ty none none)) := by
  constructor
  · simp only [parseError]
    split
    · cases hfind : findLineRef m.data with
      | some n => exact ⟨_, rfl⟩
      | none => exact ⟨_, rfl⟩
    · exact ⟨_, rfl⟩
  · intro hstk hmsg
    cases stk with
    | none =>
      simp only [parseError]
      split
      · rw [hmsg]
      · rfl
    | some s =>
      have hsn := hstk s rfl
      by_cases hs : s = ""
      · subst hs
        simp only [parseError]
        rw [if_neg (show ¬ ("" : String) ≠ "" from by simp)]
        split
        · rw [hmsg]
        · rfl
      · have hnone : findColonPair s.data = none := hsn.resolve_left hs
        simp only [parseError, hnone, if_pos (show s ≠ "" from hs)]
        split
        · rw [hmsg]
        · rfl

/-- C8 (counterexample): `createProject` validates nothing — with an
empty name and a zero-sized viewport it still produces a Project, which
violates the claimed invariants. -/
theorem c8_create_unvalidated :
    ¬ ProjectInvariants
        (createProject "" { width := ⟨0, 0⟩, height := ⟨0, 0⟩, label := "" }
          "" "2024-01-01T00:00:00.000Z") := by
  decide

/-- C8 (amended): `createProject` stamps `createdAt = updatedAt = now`
and copies name, viewport and code through unchanged, and `touchProject`
only refreshes `updatedAt` — so the timestamp invariant holds at creation
and is preserved by touching with a not-earlier `now`, while the
name/viewport invariants hold exactly when the inputs supply them;
neither operation enforces a non-empty name or a positive viewport. -/
theorem c8_create_touch_invariants (name : String) (vp : ViewportSize)
    (code now : String) (hname : name ≠ "") (hw : 0 < vp.width.m)
    (hh : 0 < vp.height.m) :
    ProjectInvariants (createProject name vp code now) ∧
    (createProject name vp code now).createdAt
      = (createProject name vp code now).updatedAt ∧
    (createProject name vp code now).name = name ∧
    (createProject name vp code now).viewportSize = vp ∧
    (createProject name vp code now).code = code ∧
    (∀ p t, ProjectInvariants p → tsLe p.createdAt t = true →
      ProjectInvariants (touchProject p t) ∧ (touchProject p t).updatedAt = t ∧
      (touchProject p t).name = p.name ∧ (touchProject p t).code = p.code ∧
      (touchProject p t).viewportSize = p.viewportSize ∧
      (touchProject p t).createdAt = p.createdAt) := by
  refine ⟨⟨hname, hw, hh, tsLe_refl now⟩, rfl, rfl, rfl, rfl, ?_⟩
  intro p t hp ht
  exact ⟨⟨hp.1, hp.2.1, hp.2.2.1, ht⟩, rfl, rfl, rfl, rfl, rfl⟩

/-- Witness for C8 at a concrete name, viewport and pair of
timestamps. -/
theorem c8_create_touch_invariants_witness :
    ProjectInvariants (createProject "Art"
      { width := ⟨85, 1⟩, height := ⟨11, 0⟩, label := "8.5x11" } "code"
      "2024-01-01T00:00:00.000Z") ∧
    (createProject "Art" { width := ⟨85, 1⟩, height := ⟨11, 0⟩, label := "8.5x11" }
      "code" "2024-01-01T00:00:00.000Z").createdAt
      = (createProject "Art" { width := ⟨85, 1⟩, height := ⟨11, 0⟩, label := "8.5x11" }
          "code" "2024-01-01T00:00:00.000Z").updatedAt ∧
    (createProject "Art" { width := ⟨85, 1⟩, height := ⟨11, 0⟩, label := "8.5x11" }
      "code" "2024-01-01T00:00:00.000Z").name = "Art" ∧
    (createProject "Art" { width := ⟨85, 1⟩, height := ⟨11, 0⟩, label := "8.5x11" }
      "code" "2024-01-01T00:00:00.000Z").viewportSize
      = { width := ⟨85, 1⟩, height := ⟨11, 0⟩, label := "8.5x11" } ∧
    (createProject "Art" { width := ⟨85, 1⟩, height := ⟨11, 0⟩, label := "8.5x11" }
      "code" "2024-01-01T00:00:00.000Z").code = "code" ∧
    (∀ p t, ProjectInvariants p → tsLe p.createdAt t = true →
      ProjectInvariants (touchProject p t) ∧ (touchProject p t).updatedAt = t ∧
      (touchProject p t).name = p.name ∧ (touchProject p t).code = p.code ∧
      (touchProject p t).viewportSize = p.viewportSize ∧
      (touchProject p t).createdAt = p.createdAt) :=
  c8_create_touch_invariants "Art"
    { width := ⟨85, 1⟩, height := ⟨11, 0⟩, label := "8.5x11" } "code"
    "2024-01-01T00:00:00.000Z" (by decide) (by decide) (by decide)

/-- The last edit value of a burst (default `d` when empty). -/
def lastValOr (d : String) : List EditEvent → String
  | [] => d
  | e :: evs => lastValOr e.value evs

/-- The last edit time of a burst (default `d` when empty). -/
def lastTimeOr (d : ℕ) : List EditEvent → ℕ
  | [] => d
  | e :: evs => lastTimeOr e.time evs

/-- Every next edit comes strictly before the 1000 ms timer armed by the
previous edit (at time `t`) fires. -/
def chainOk : ℕ → List EditEvent → Prop
  | _, [] => True
  | t, e :: r => e.time < t + 1000 ∧ chainOk e.time r

def chainOkDec : (t : ℕ) → (evs : List EditEvent) → Decidable (chainOk t evs)
  | _, [] => .isTrue trivial
  | _, e :: r =>
    have : Decidable (chainOk e.time r) := chainOkDec e.time r
    inferInstanceAs (Decidable (_ ∧ _))

instance (t : ℕ) (evs : List EditEvent) : Decidable (chainOk t evs) :=
  chainOkDec t evs

theorem burst_fold (v : String) (t : ℕ) (evs : List EditEvent)
    (fired : List String) (h : chainOk t evs) :
    evs.foldl editStep ({ value := v, pendingFire := some (t + 1000) }, fired)
      = ({ value := lastValOr v evs,
           pendingFire := some (lastTimeOr t evs + 1000) }, fired) := by
  induction evs generalizing v t with
  | nil => simp [lastValOr, lastTimeOr]
  | cons e r ih =>
    obtain ⟨h1, h2⟩ := h
    simp only [List.foldl_cons]
    rw [show editStep ({ value := v, pendingFire := some (t + 1000) }, fired) e
        = ({ value := e.value, pendingFire := some (e.time + 1000) }, fired) from by
      simp [editStep, Nat.not_le.mpr h1]]
    simpa [lastValOr, lastTimeOr] using ih e.value e.time h2

theorem handleAutoSave_spec (a : AppState) (proj : Project) (st : LocalStore)
    (code now : String) (hvalid : isValidProject proj = true) :
    (handleAutoSave a proj st code now).1 = a ∧
    (handleAutoSave a proj st code now).2.2.2
      = (if (saveProjectToLocalStorage st
            (touchProject { proj with code := code } now)).1
         then [serializeProject (touchProject { proj with code := code } now)]
         else []) := by
  have hval2 : isValidProject { proj with code := code } = true := hvalid
  unfold handleAutoSave managerSaveToLocalStorage
  simp only []
  rw [if_neg (show ¬ (isValidProject { proj with code := code } = false) from by
    simp [hval2])]
  refine ⟨?_, ?_⟩ <;> first | rfl | trivial

/-- Concrete burst data for C6. -/
def c6Project : Project :=
  { name := "N", code := "old",
    viewportSize := { width := ⟨1, 0⟩, height := ⟨1, 0⟩, label := "1x1" },
    createdAt := "2024-01-01T00:00:00.000Z",
    updatedAt := "2024-01-01T00:00:00.000Z" }

/-- A store with room to spare. -/
def c6Store : LocalStore := { available := true, quota := 100000, entries := [] }

/-- Two edits 500 ms apart — both inside the 1000 ms quiet window. -/
def c6Edits : List EditEvent :=
  [{ value := "a", time := 0 }, { value := "b", time := 500 }]

set_option maxRecDepth 100000 in
/-- C6 (counterexample): a two-edit burst within the quiet window
produces exactly one persistence write (carrying the last value `"b"`)
but issues **zero** executions — the autosave handler only writes; no
execution is ever issued by the edit path, refuting "exactly one
execution is issued". -/
theorem c6_no_execution_issued :
    runEdits "init" c6Edits = ["b"] ∧
    (runAutoSaves initialApp c6Project c6Store "2024-01-02T00:00:00.000Z"
      (runEdits "init" c6Edits)).1.issued = 0 ∧
    initialApp.issued = 0 ∧
    (runAutoSaves initialApp c6Project c6Store "2024-01-02T00:00:00.000Z"
      (runEdits "init" c6Edits)).2.2.2.length = 1 := by
  decide

/-- C6 (amended): a non-empty burst of edits all within the 1000 ms
quiet window coalesces into exactly one autosave carrying the last
script value, which (for a valid project and a successful store write)
performs exactly one persistence write carrying that value; no earlier
value of the burst is dispatched or written, and no execution is issued
by the edit path (the application state, including its issue counter, is
untouched). -/
theorem c6_burst_one_write (init : String) (e : EditEvent)
    (evs : List EditEvent) (a : AppState) (proj : Project) (st : LocalStore)
    (now : String) (hwin : chainOk e.time evs)
    (hvalid : isValidProject proj = true)
    (hsave : (saveProjectToLocalStorage st
        (touchProject { proj with code := lastValOr e.value evs } now)).1
      = true) :
    runEdits init (e :: evs) = [lastValOr e.value evs] ∧
    (runAutoSaves a proj st now (runEdits init (e :: evs))).2.2.2
      = [serializeProject
          (touchProject { proj with code := lastValOr e.value evs } now)] ∧
    (runAutoSaves a proj st now (runEdits init (e :: evs))).1 = a := by
  have hre : runEdits init (e :: evs) = [lastValOr e.value evs] := by
    unfold runEdits
    simp only [List.foldl_cons]
    rw [show editStep ({ value := init, pendingFire := none }, []) e
        = ({ value := e.value, pendingFire := some (e.time + 1000) }, []) from by
      simp [editStep]]
    rw [burst_fold e.value e.time evs [] hwin]
    simp [flushTimer]
  obtain ⟨ha, hw⟩ := handleAutoSave_spec a proj st (lastValOr e.value evs) now hvalid
  have hsingle : runAutoSaves a proj st now [lastValOr e.value evs]
      = ((handleAutoSave a proj st (lastValOr e.value evs) now).1,
         (handleAutoSave a proj st (lastValOr e.value evs) now).2.1,
         (handleAutoSave a proj st (lastValOr e.value evs) now).2.2.1,
         (handleAutoSave a proj st (lastValOr e.value evs) now).2.2.2 ++ []) := rfl
  refine ⟨hre, ?_, ?_⟩
  · rw [hre, hsingle]
    simp only [List.append_nil]
    rw [hw, if_pos hsave]
  · rw [hre, hsingle]
    exact ha

set_option maxRecDepth 100000 in
/-- Witness for C6 at a concrete two-edit burst. -/
theorem c6_burst_one_write_witness :
    runEdits "i" ({ value := "a", time := 0 } :: [{ value := "b", time := 500 }])
      = [lastValOr "a" [{ value := "b", time := 500 }]] ∧
    (runAutoSaves initialApp c6Project c6Store "2024-01-02T00:00:00.000Z"
        (runEdits "i"
          ({ value := "a", time := 0 } :: [{ value := "b", time := 500 }]))).2.2.2
      = [serializeProject
          (touchProject
            { c6Project with code := lastValOr "a" [{ value := "b", time := 500 }] }
            "2024-01-02T00:00:00.000Z")] ∧
    (runAutoSaves initialApp c6Project c6Store "2024-01-02T00:00:00.000Z"
        (runEdits "i"
          ({ value := "a", time := 0 } :: [{ value := "b", time := 500 }]))).1
      = initialApp :=
  c6_burst_one_write "i" { value := "a", time := 0 }
    [{ value := "b", time := 500 }] initialApp c6Project c6Store
    "2024-01-02T00:00:00.000Z" (by decide) (by decide) (by decide)

theorem getEntry_setEntry_ne (l : List (String × String)) {k k2 : String}
    (v2 : String) (h : k ≠ k2) :
    getEntry (setEntry l k2 v2) k = getEntry l k := by
  unfold getEntry setEntry
  induction l with
  | nil =>
    simp only [List.filter_nil, List.nil_append, List.find?_cons,
      List.find?_nil]
    have hd : (decide (k2 = k)) = false := by
      simp
      exact fun hh => h hh.symm
    rw [hd]
  | cons a t ih =>
    by_cases hq : a.1 = k2
    · have hak : (decide (a.1 = k)) = false := by
        simp [hq]
        exact fun hh => h hh.symm
      have hqd : (decide (a.1 ≠ k2)) = false := by simp [hq]
      simp only [List.filter_cons, hqd, if_false, Bool.false_eq_true]
      simp only [List.find?_cons, hak]
      exact ih
    · have hqd : (decide (a.1 ≠ k2)) = true := by simp [hq]
      simp only [List.filter_cons, hqd, if_true]
      by_cases hak : a.1 = k
      · have had : (decide (a.1 = k)) = true := by simp [hak]
        simp only [List.cons_append, List.find?_cons, had]
      · have had : (decide (a.1 = k)) = false := by simp [hak]
        simp only [List.cons_append, List.find?_cons, had]
        exact ih

/-- C9: for every successful export (non-empty markup and filename, and a
parsed `svg` element), the artifact is the serialised element wrapped with
the XML declaration header, the element carries both namespace attributes,
its `viewBox` attribute reads exactly `0 0 {width} {height}` in viewport
units, and the download filename is the requested name with the `.svg`
suffix. -/
theorem c9_export_artifact (svgMarkup : String) (el : SvgElement)
    (filename : String) (vp : ViewportSize)
    (hm : svgMarkup ≠ "") (hf : filename ≠ "") :
    ∃ el3,
      exportSVG svgMarkup (some el) filename vp
        = .ok (xmlDeclaration ++ serializeElement el3, filename ++ ".svg") ∧
      getAttribute el3 "viewBox"
        = some ("0 0 " ++ String.mk (renderJNum vp.width) ++ " "
            ++ String.mk (renderJNum vp.height)) ∧
      getAttribute el3 "xmlns" = some "http://www.w3.org/2000/svg" ∧
      getAttribute el3 "xmlns:xlink" = some "http://www.w3.org/1999/xlink" := by
  refine ⟨setAttribute (setAttribute (setAttribute el "xmlns"
      "http://www.w3.org/2000/svg") "xmlns:xlink" "http://www.w3.org/1999/xlink")
      "viewBox" ("0 0 " ++ String.mk (renderJNum vp.width) ++ " "
        ++ String.mk (renderJNum vp.height)), ?_, ?_, ?_, ?_⟩
  · unfold exportSVG
    rw [if_neg hm, if_neg hf]
  · simp only [getAttribute, setAttribute]
    exact getEntry_setEntry _ _ _
  · simp only [getAttribute, setAttribute]
    rw [getEntry_setEntry_ne _ _
        (show ("xmlns" : String) ≠ "viewBox" from by decide),
      getEntry_setEntry_ne _ _
        (show ("xmlns" : String) ≠ "xmlns:xlink" from by decide)]
    exact getEntry_setEntry _ _ _
  · simp only [getAttribute, setAttribute]
    rw [getEntry_setEntry_ne _ _
        (show ("xmlns:xlink" : String) ≠ "viewBox" from by decide)]
    exact getEntry_setEntry _ _ _

/-- The concrete 6x6 viewport of the spec's export scenario. -/
def c9Viewport : ViewportSize :=
  { width := { m := 6, e := 0 }, height := { m := 6, e := 0 }, label := "6x6" }

set_option maxRecDepth 100000 in
/-- Witness for C9 at the spec's 6x6 scenario: the viewBox string is
exactly `0 0 6 6`. -/
theorem c9_export_artifact_witness :
    ("<svg><path d=\"M0 0H6\"/></svg>" : String) ≠ "" ∧
    ("my-plot" : String) ≠ "" ∧
    ("0 0 " ++ String.mk (renderJNum c9Viewport.width) ++ " "
        ++ String.mk (renderJNum c9Viewport.height)) = "0 0 6 6" ∧
    (∃ el3,
      exportSVG "<svg><path d=\"M0 0H6\"/></svg>"
          (some { attrs := [], inner := "<path d=\"M0 0H6\"/>" })
          "my-plot" c9Viewport
        = .ok (xmlDeclaration ++ serializeElement el3, "my-plot" ++ ".svg") ∧
      getAttribute el3 "viewBox"
        = some ("0 0 " ++ String.mk (renderJNum c9Viewport.width) ++ " "
            ++ String.mk (renderJNum c9Viewport.height)) ∧
      getAttribute el3 "xmlns" = some "http://www.w3.org/2000/svg" ∧
      getAttribute el3 "xmlns:xlink" = some "http://www.w3.org/1999/xlink") :=
  ⟨by decide, by decide, by decide,
    c9_export_artifact "<svg><path d=\"M0 0H6\"/></svg>"
      { attrs := [], inner := "<path d=\"M0 0H6\"/>" } "my-plot" c9Viewport
      (by decide) (by decide)⟩

/-- C10: for every valid project (canonical viewport numbers), a manager
save that reports success stores the serialised touched copy of the
project — identical to the input except `updatedAt` refreshed to `now` —
while the manager's in-memory `currentProject` reference is returned
unchanged (the method never assigns it) and the input project itself is
untouched (only a spread copy is modified); the stored snapshot reads
back as the touched copy, so its `updatedAt` is not older than the
in-memory project's whenever `now` is not. -/
theorem c10_manager_save (cur : Option Project) (p : Project) (now : String)
    (st : LocalStore)
    (hw : p.viewportSize.width.canon) (hh : p.viewportSize.height.canon)
    (hsucc : (managerSaveToLocalStorage cur p now st).1 = true) :
    (managerSaveToLocalStorage cur p now st).2.1 = cur ∧
    getEntry (managerSaveToLocalStorage cur p now st).2.2.entries projectKey
      = some (serializeProject (touchProject p now)) ∧
    deserializeProject (serializeProject (touchProject p now))
      = some (touchProject p now) ∧
    (touchProject p now).name = p.name ∧
    (touchProject p now).code = p.code ∧
    (touchProject p now).viewportSize = p.viewportSize ∧
    (touchProject p now).createdAt = p.createdAt ∧
    (touchProject p now).updatedAt = now ∧
    (tsLe p.updatedAt now = true →
      tsLe p.updatedAt (touchProject p now).updatedAt = true) := by
  have hval : isValidProject p = true := by
    cases h : isValidProject p with
    | true => rfl
    | false =>
      exfalso
      unfold managerSaveToLocalStorage at hsucc
      rw [h] at hsucc
      simp at hsucc
  have hm : managerSaveToLocalStorage cur p now st
      = ((saveProjectToLocalStorage st (touchProject p now)).1, cur,
         (saveProjectToLocalStorage st (touchProject p now)).2) := by
    unfold managerSaveToLocalStorage
    rw [if_neg (show ¬ isValidProject p = false from by simp [hval])]
  rw [hm] at hsucc
  rw [hm]
  exact ⟨rfl, (saveProject_stores hsucc).2,
    deserializeProject_serializeProject _ hw hh,
    rfl, rfl, rfl, rfl, rfl, fun ht => ht⟩

/-- A concrete project for the C10 witness. -/
def c10Project : Project :=
  { name := "P", code := "x",
    viewportSize := { width := ⟨6, 0⟩, height := ⟨4, 0⟩, label := "s" },
    createdAt := "2024-01-01T00:00:00.000Z",
    updatedAt := "2024-01-01T00:00:00.000Z" }

/-- A store with room for the C10 witness save. -/
def c10Store : LocalStore :=
  { available := true, quota := 100000, entries := [] }

/-- The save instant of the C10 witness. -/
def c10Now : String := "2024-01-02T00:00:00.000Z"

set_option maxRecDepth 100000 in
/-- Witness for C10 at a concrete manager save. -/
theorem c10_manager_save_witness :
    c10Project.viewportSize.width.canon ∧
    c10Project.viewportSize.height.canon ∧
    (managerSaveToLocalStorage none c10Project c10Now c10Store).1 = true ∧
    ((managerSaveToLocalStorage none c10Project c10Now c10Store).2.1
        = none ∧
      getEntry (managerSaveToLocalStorage none c10Project c10Now
          c10Store).2.2.entries projectKey
        = some (serializeProject (touchProject c10Project c10Now)) ∧
      deserializeProject (serializeProject (touchProject c10Project c10Now))
        = some (touchProject c10Project c10Now) ∧
      (touchProject c10Project c10Now).name = c10Project.name ∧
      (touchProject c10Project c10Now).code = c10Project.code ∧
      (touchProject c10Project c10Now).viewportSize
        = c10Project.viewportSize ∧
      (touchProject c10Project c10Now).createdAt = c10Project.createdAt ∧
      (touchProject c10Project c10Now).updatedAt = c10Now ∧
      (tsLe c10Project.updatedAt c10Now = true →
        tsLe c10Project.updatedAt
          (touchProject c10Project c10Now).updatedAt = true)) :=
  ⟨Or.inl rfl, Or.inl rfl, by decide,
    c10_manager_save none c10Project c10Now c10Store (Or.inl rfl)
      (Or.inl rfl) (by decide)⟩
